import Mathlib

/-!
Verification of the event-planner service (Slack webhook state machine,
plan codec, context builder, approval orchestrator) against its
natural-language specification.  The definitions below are a shallow
embedding of the TypeScript sources under src/event-planner/src/: pure
string and list manipulation is translated function by function; the
external primitives (HMAC-SHA256, JSON.parse of arbitrary platform
payloads, the network calls, the clock and UUID generation) are passed in
as explicit parameters, so that every handler becomes a total function of
its inputs and of the recorded results of its external calls.
-/

/-! ## Character and string helpers (JS semantics) -/

/-- The whitespace class used by JS regex \s and String.prototype.trim,
restricted to the ASCII whitespace characters that can occur in the data
this service handles. -/
def jsWs (c : Char) : Bool :=
  c = ' ' || c = '\t' || c = '\n' || c = '\r' || c = '\x0b' || c = '\x0c'

/-- List-of-characters form of JS String.prototype.trim. -/
def trimChars (l : List Char) : List Char :=
  ((l.dropWhile jsWs).reverse.dropWhile jsWs).reverse

/-- JS String.prototype.trim on a Lean string. -/
def jsTrim (s : String) : String :=
  String.mk (trimChars s.data)

/-- Substring test on character lists: does the pattern occur in the list
(JS String.prototype.includes)? -/
def containsSub (pat : List Char) : List Char → Bool
  | [] => pat.isEmpty
  | c :: cs => pat.isPrefixOf (c :: cs) || containsSub pat cs

/-- JS s.includes(pat). -/
def strIncludes (s pat : String) : Bool :=
  containsSub pat.data s.data

/-- JS String.prototype.split with separator "\n": every maximal newline-free
segment, keeping empty segments, never returning an empty list. -/
def splitLines : List Char → List (List Char)
  | [] => [[]]
  | c :: rest =>
    if c = '\n' then [] :: splitLines rest
    else
      match splitLines rest with
      | [] => [[c]]
      | l :: ls => (c :: l) :: ls

/-- JS s.split("\n") on Lean strings. -/
def splitLinesS (s : String) : List String :=
  (splitLines s.data).map String.mk

/-- JS Array.prototype.join("\n"). -/
def joinNl : List String → String
  | [] => ""
  | [s] => s
  | s :: rest => s ++ "\n" ++ joinNl rest

/-- JS String.prototype.toLowerCase (ASCII range, which is all the keyword
matching in the handlers needs). -/
def lowerStr (s : String) : String :=
  String.mk (s.data.map Char.toLower)

/-- Decimal digit character for a digit value 0..9 (values above 9 cannot be
produced by the callers, which always pass n % 10). -/
def digitChar : Nat → Char
  | 0 => '0' | 1 => '1' | 2 => '2' | 3 => '3' | 4 => '4'
  | 5 => '5' | 6 => '6' | 7 => '7' | 8 => '8' | _ => '9'

/-- Decimal digits of a natural number, most significant first; fuel-driven
so that every call reduces structurally. -/
def natDigitsAux : Nat → Nat → List Char
  | 0, _ => []
  | fuel + 1, n =>
    if n < 10 then [digitChar n]
    else natDigitsAux fuel (n / 10) ++ [digitChar (n % 10)]

/-- Decimal rendering of a natural number (JS number-to-string for the
non-negative integers this model uses). -/
def natRepr (n : Nat) : String :=
  String.mk (natDigitsAux (n + 1) n)

/-- Group reversed decimal digits in threes, inserting a comma after every
third digit: the en-US thousands grouping walked from the right. -/
def group3 : List Char → List Char
  | a :: b :: c :: d :: rest => a :: b :: c :: ',' :: group3 (d :: rest)
  | l => l

/-- JS Number.prototype.toLocaleString() for a non-negative integer under the
en-US default locale: decimal digits with comma thousands separators. -/
def natToLocale (n : Nat) : String :=
  String.mk ((group3 (natRepr n).data.reverse).reverse)

/-! ## JS parseInt (src/event-planner/src/slack.ts line 207) -/

/-- Decimal digits prefix to an integer value; none when the prefix is empty
(parseInt returns NaN). -/
def digitsPrefixVal (l : List Char) : Option Nat :=
  let ds := l.takeWhile Char.isDigit
  if ds.isEmpty then none
  else some (ds.foldl (fun acc c => acc * 10 + (c.toNat - 48)) 0)

/-- Hexadecimal digit value. -/
def hexVal (c : Char) : Option Nat :=
  if '0' ≤ c ∧ c ≤ '9' then some (c.toNat - 48)
  else if 'a' ≤ c ∧ c ≤ 'f' then some (c.toNat - 87)
  else if 'A' ≤ c ∧ c ≤ 'F' then some (c.toNat - 55)
  else none

/-- Hexadecimal digits prefix to an integer value. -/
def hexPrefixVal (l : List Char) : Option Nat :=
  let ds := l.takeWhile (fun c => (hexVal c).isSome)
  if ds.isEmpty then none
  else some (ds.foldl (fun acc c => acc * 16 + ((hexVal c).getD 0)) 0)

/-- JS parseInt(s) with no radix argument: skip leading whitespace, optional
sign, then either a 0x/0X hexadecimal literal or a decimal digit prefix;
none models the NaN result. -/
def parseIntJS (s : String) : Option Int :=
  let l := s.data.dropWhile jsWs
  let signed : Bool × List Char :=
    match l with
    | '-' :: rest => (true, rest)
    | '+' :: rest => (false, rest)
    | _ => (false, l)
  let mag : Option Nat :=
    match signed.2 with
    | '0' :: 'x' :: rest => hexPrefixVal rest
    | '0' :: 'X' :: rest => hexPrefixVal rest
    | rest => digitsPrefixVal rest
  mag.map (fun n => if signed.1 then -(n : Int) else (n : Int))

/-! ## Signature verifier (src/event-planner/src/slack.ts lines 199-239)

The HMAC-SHA256 hex digest computed through the Web Crypto API is the
external cryptographic primitive; it is passed in as a function from
(secret, message) to the lowercase hex digest string, and the "v0=" prefix
is added by the code itself exactly as in the source. -/

/-- Model of verifySlackSignature: stale-timestamp rejection (Math.abs of
the current time minus parseInt of the timestamp header being over 300 is a
false comparison when parseInt yields NaN, so a non-numeric timestamp is
never rejected as stale), then exact equality of the supplied signature
with "v0=" plus the HMAC-SHA256 hex digest of "v0:" + timestamp + ":" +
body under the signing secret. -/
def verifySlackSignature (hmacHex : String → String → String)
    (currentTime : Int)
    (signingSecret timestamp body signature : String) : Bool :=
  let requestTime := parseIntJS timestamp
  let stale : Bool :=
    match requestTime with
    | some t => (currentTime - t).natAbs > 300
    | none => false
  if stale then false
  else
    let baseString := "v0:" ++ timestamp ++ ":" ++ body
    let computed := "v0=" ++ hmacHex signingSecret baseString
    computed == signature

/-! ## JSON values and JSON.parse

The handlers call JSON.parse on model output and read the resulting
dynamic object without any validation.  JSON values are modelled with the
usual inductive; the parser below follows the JSON grammar as JSON.parse
accepts it, with two documented restrictions that no claim touches: number
literals are integers (no fraction or exponent part) and string escapes
cover the single-character escapes but not \u sequences. -/

inductive Json where
  | null
  | bool (b : Bool)
  | num (n : Int)
  | str (s : String)
  | arr (elems : List Json)
  | obj (fields : List (String × Json))

/-- JS object write: overwrite the value in place when the key exists, else
append (property order keeps the first write of a key, value keeps the
last, exactly the JS assignment and spread semantics). -/
def objUpsert : List (String × Json) → String → Json → List (String × Json)
  | [], k, v => [(k, v)]
  | (k', v') :: rest, k, v =>
    if k' = k then (k', v) :: rest else (k', v') :: objUpsert rest k v

/-- JS property read on an object whose keys are unique. -/
def objLookup : List (String × Json) → String → Option Json
  | [], _ => none
  | (k', v) :: rest, k => if k' = k then some v else objLookup rest k

/-- JS property read on any value: undefined (none) unless the value is an
object with that key. -/
def jGet : Json → String → Option Json
  | .obj fs, k => objLookup fs k
  | _, _ => none

/-- JS truthiness of a JSON value. -/
def jTruthy : Json → Bool
  | .null => false
  | .bool b => b
  | .num n => n ≠ 0
  | .str s => s ≠ ""
  | .arr _ => true
  | .obj _ => true

/-- JS truthiness of a possibly-undefined property. -/
def jOptTruthy : Option Json → Bool
  | some j => jTruthy j
  | none => false

/-- JS strict equality of a possibly-undefined property with the literal
string "create_event": true exactly for that string value. -/
def isCreateEventAction : Option Json → Bool
  | some (.str s) => s = "create_event"
  | _ => false

/-- JS object spread of an arbitrary value: objects contribute their fields,
arrays and strings their indexed elements, primitives nothing. -/
def spreadFields : Json → List (String × Json)
  | .obj fs => fs
  | .arr xs => xs.enum.map (fun p => (natRepr p.1, p.2))
  | .str s => s.data.enum.map (fun p => (natRepr p.1, Json.str (String.mk [p.2])))
  | _ => []

/-- Spread a value over a base object, later writes overriding earlier. -/
def objSpread (base : List (String × Json)) (j : Json) : List (String × Json) :=
  (spreadFields j).foldl (fun acc kv => objUpsert acc kv.1 kv.2) base

/-- The whitespace JSON.parse skips between tokens. -/
def jsonWsChar (c : Char) : Bool :=
  c = ' ' || c = '\t' || c = '\n' || c = '\r'

/-- Skip inter-token whitespace. -/
def skipJsonWs (l : List Char) : List Char :=
  l.dropWhile jsonWsChar

/-- JSON string body after the opening quote: the decoded characters and the
rest after the closing quote; fails on an unterminated string, a raw
control character or an unsupported escape. -/
def parseStrBody : List Char → Option (List Char × List Char)
  | [] => none
  | '"' :: rest => some ([], rest)
  | '\\' :: e :: rest =>
    match
      (if e = '"' then some '"'
       else if e = '\\' then some '\\'
       else if e = '/' then some '/'
       else if e = 'n' then some '\n'
       else if e = 't' then some '\t'
       else if e = 'r' then some '\r'
       else if e = 'b' then some '\x08'
       else if e = 'f' then some '\x0c'
       else none) with
    | some d =>
      match parseStrBody rest with
      | some (acc, rem) => some (d :: acc, rem)
      | none => none
    | none => none
  | c :: rest =>
    if c.toNat < 32 then none
    else
      match parseStrBody rest with
      | some (acc, rem) => some (c :: acc, rem)
      | none => none

/-- JSON integer literal: optional minus, then a single 0 or a nonzero digit
followed by digits; fails when a fraction or exponent part follows (model
restriction, see above). -/
def parseJsonNum (l : List Char) : Option (Int × List Char) :=
  let signed : Bool × List Char :=
    match l with
    | '-' :: rest => (true, rest)
    | _ => (false, l)
  let body : Option (Nat × List Char) :=
    match signed.2 with
    | '0' :: rest => some (0, rest)
    | c :: rest =>
      if c.isDigit ∧ c ≠ '0' then
        let ds := rest.takeWhile Char.isDigit
        some ((ds.foldl (fun acc d => acc * 10 + (d.toNat - 48)) (c.toNat - 48),
               rest.drop ds.length))
      else none
    | [] => none
  match body with
  | some (n, rest) =>
    match rest with
    | '.' :: _ => none
    | 'e' :: _ => none
    | 'E' :: _ => none
    | _ => some ((if signed.1 then -(n : Int) else (n : Int)), rest)
  | none => none

mutual

/-- JSON value parser, fuel-driven: leading whitespace, then one value. -/
def parseJsonVal : Nat → List Char → Option (Json × List Char)
  | 0, _ => none
  | fuel + 1, l =>
    let l := skipJsonWs l
    if "null".data.isPrefixOf l then some (.null, l.drop 4)
    else if "true".data.isPrefixOf l then some (.bool true, l.drop 4)
    else if "false".data.isPrefixOf l then some (.bool false, l.drop 5)
    else
      match l with
      | '"' :: rest =>
        match parseStrBody rest with
        | some (cs, rem) => some (.str (String.mk cs), rem)
        | none => none
      | '[' :: rest =>
        (match skipJsonWs rest with
         | ']' :: rem => some (.arr [], rem)
         | l' =>
           match parseJsonArrItems fuel l' with
           | some (xs, rem) => some (.arr xs, rem)
           | none => none)
      | '\x7b' :: rest =>
        (match skipJsonWs rest with
         | '\x7d' :: rem => some (.obj [], rem)
         | l' =>
           match parseJsonObjItems fuel l' with
           | some (fs, rem) =>
             some (.obj (fs.foldl (fun acc kv => objUpsert acc kv.1 kv.2) []), rem)
           | none => none)
      | _ =>
        match parseJsonNum l with
        | some (n, rem) => some (.num n, rem)
        | none => none

/-- Comma-separated array items up to the closing bracket. -/
def parseJsonArrItems : Nat → List Char → Option (List Json × List Char)
  | 0, _ => none
  | fuel + 1, l =>
    match parseJsonVal fuel l with
    | some (x, rem) =>
      (match skipJsonWs rem with
       | ',' :: rem' =>
         match parseJsonArrItems fuel rem' with
         | some (xs, rem'') => some (x :: xs, rem'')
         | none => none
       | ']' :: rem' => some ([x], rem')
       | _ => none)
    | none => none

/-- Comma-separated object members up to the closing brace, in source
order (duplicates are merged afterwards, later values overwriting earlier
ones as JSON.parse does). -/
def parseJsonObjItems : Nat → List Char → Option (List (String × Json) × List Char)
  | 0, _ => none
  | fuel + 1, l =>
    match skipJsonWs l with
    | '"' :: rest =>
      (match parseStrBody rest with
       | some (kcs, rem) =>
         (match skipJsonWs rem with
          | ':' :: rem' =>
            (match parseJsonVal fuel rem' with
             | some (v, rem'') =>
               (match skipJsonWs rem'' with
                | ',' :: rem3 =>
                  (match parseJsonObjItems fuel rem3 with
                   | some (fs, rem4) => some ((String.mk kcs, v) :: fs, rem4)
                   | none => none)
                | '\x7d' :: rem3 => some ([(String.mk kcs, v)], rem3)
                | _ => none)
             | none => none)
          | _ => none)
       | none => none)
    | _ => none

end

/-- JSON.parse: one value, optionally surrounded by whitespace, nothing
after it; none models the thrown SyntaxError. -/
def jsonParse (s : String) : Option Json :=
  match parseJsonVal (s.length + 1) s.data with
  | some (j, rest) => if (skipJsonWs rest).isEmpty then some j else none
  | none => none

/-! ## Event plan data model (src/unnamed/part_000, the type definitions) -/

/-- Lifecycle status union of the EventPlan interface. -/
inductive EventStatus where
  | draft
  | approved
  | sent_to_slack
deriving DecidableEq

/-- The EventPlan interface.  The optional category field is called
eventType here because the source calls it type.  The budget is modelled
as a non-negative whole number: the source type is a JS number, but the
specification calls it a non-negative amount and the fractional rendering
of toLocaleString is outside this model, so budget-quantified theorems
range over whole-dollar amounts. -/
structure EventPlan where
  id : String
  title : String
  date : String
  time : Option String
  guests : List String
  timeline : List String
  budget : Nat
  venue : Option String
  description : Option String
  eventType : Option String
  status : EventStatus
  slackChannelId : Option String
  createdAt : String
  updatedAt : String
deriving DecidableEq

/-- JS truthiness of an optional string (undefined and the empty string are
falsy). -/
def truthyS : Option String → Bool
  | some s => s ≠ ""
  | none => false

/-- One Block Kit block as this service builds and reads them: a header with
plain text, a section carrying either mrkdwn fields or one mrkdwn text, a
divider, or a context block. -/
inductive SlackBlock where
  | header (text : String)
  | section (fields : Option (List String)) (text : Option String)
  | divider
  | context (text : String)
deriving DecidableEq

/-- The SlackMessage payload for chat.postMessage. -/
structure SlackMessage where
  channel : String
  text : String
  blocks : List SlackBlock
deriving DecidableEq

/-! ## Date rendering (new Date(event.date).toLocaleDateString("en-US", ...))

The source turns the plan date into a long en-US date.  The model covers
the ISO YYYY-MM-DD form (parsed as UTC, which is the timezone of the
deployment runtime); any other string renders as "Invalid Date", the
toLocaleDateString output for an invalid date. -/

/-- Gregorian leap year. -/
def isLeap (y : Nat) : Bool :=
  (y % 4 = 0 && y % 100 ≠ 0) || y % 400 = 0

/-- Days in a month, month numbered from 1. -/
def daysInMonth (y m : Nat) : Nat :=
  match m with
  | 1 => 31 | 2 => if isLeap y then 29 else 28 | 3 => 31
  | 4 => 30 | 5 => 31 | 6 => 30 | 7 => 31 | 8 => 31
  | 9 => 30 | 10 => 31 | 11 => 30 | 12 => 31
  | _ => 0

/-- en-US long month name, month numbered from 1. -/
def monthName : Nat → String
  | 1 => "January" | 2 => "February" | 3 => "March" | 4 => "April"
  | 5 => "May" | 6 => "June" | 7 => "July" | 8 => "August"
  | 9 => "September" | 10 => "October" | 11 => "November" | 12 => "December"
  | _ => ""

/-- en-US weekday name, 0 = Sunday. -/
def weekdayName : Nat → String
  | 0 => "Sunday" | 1 => "Monday" | 2 => "Tuesday" | 3 => "Wednesday"
  | 4 => "Thursday" | 5 => "Friday" | _ => "Saturday"

/-- Day of week by the Sakamoto congruence, 0 = Sunday. -/
def sakamoto (y m d : Nat) : Nat :=
  let t := [0, 3, 2, 5, 0, 3, 5, 1, 4, 6, 2, 4]
  let y' := if m < 3 then y - 1 else y
  (y' + y' / 4 - y' / 100 + y' / 400 + t.getD (m - 1) 0 + d) % 7

/-- Numeric value of a decimal digit character. -/
def digitVal (c : Char) : Nat := c.toNat - 48

/-- Parse a strict YYYY-MM-DD calendar date, validating the month and the
day against the month length as the runtime date parser does. -/
def parseIsoDate (s : String) : Option (Nat × Nat × Nat) :=
  match s.data with
  | [y1, y2, y3, y4, h1, m1, m2, h2, d1, d2] =>
    if h1 = '-' ∧ h2 = '-' ∧ ([y1, y2, y3, y4, m1, m2, d1, d2].all Char.isDigit) then
      let y := ((digitVal y1 * 10 + digitVal y2) * 10 + digitVal y3) * 10 + digitVal y4
      let m := digitVal m1 * 10 + digitVal m2
      let d := digitVal d1 * 10 + digitVal d2
      if 1 ≤ m ∧ m ≤ 12 ∧ 1 ≤ d ∧ d ≤ daysInMonth y m then some (y, m, d) else none
    else none
  | _ => none

/-- The formatted long date the encoder embeds in the Date field.  The
model covers exactly the strict ISO YYYY-MM-DD form (the shape the system
prompt requests from the model); the runtime Date parser also accepts
other shapes, so every theorem that quantifies over dates carries a
parseIsoDate hypothesis restricting it to this faithful region. -/
def formatLongDate (s : String) : String :=
  match parseIsoDate s with
  | some (y, m, d) =>
    weekdayName (sakamoto y m d) ++ ", " ++ monthName m ++ " " ++ natRepr d ++ ", " ++ natRepr y
  | none => "Invalid Date"

/-! ## Plan encoder (SlackService.formatEventMessage, slack.ts lines 45-146) -/

/-- The timeline items as the encoder renders them, carrying the running
index of the map callback: item k becomes "k+1. item". -/
def numberItemsFrom (k : Nat) : List String → List String
  | [] => []
  | item :: rest => (natRepr (k + 1) ++ ". " ++ item) :: numberItemsFrom (k + 1) rest

/-- The timeline items as the encoder renders them: 1-indexed "N. item"
lines, order preserved. -/
def numberItems (items : List String) : List String :=
  numberItemsFrom 0 items

/-- The guest list as the encoder renders it: bulleted lines. -/
def bulletItems (gs : List String) : List String :=
  gs.map (fun g => "• " ++ g)

/-- event.venue || "TBD". -/
def venueDisplay : Option String → String
  | some v => if v = "" then "TBD" else v
  | none => "TBD"

/-- SlackService.formatEventMessage.  today stands for the rendering-time
date stamped into the footer context block (new Date().toLocaleDateString()). -/
def formatEventMessage (event : EventPlan) (today : String) : SlackMessage :=
  let formattedDate := formatLongDate event.date
  let baseBlocks : List SlackBlock :=
    [SlackBlock.header event.title,
     SlackBlock.section
       (some ["*Date:*\n" ++ formattedDate,
              "*Expected Guests:*\n" ++
                (if event.guests.length > 0 then natRepr event.guests.length else "TBD"),
              "*Budget:*\n$" ++ natToLocale event.budget,
              "*Venue:*\n" ++ venueDisplay event.venue])
       none]
  let withDescription := baseBlocks ++
    (if truthyS event.description then
       [SlackBlock.section none (some ("*Description:*\n" ++ event.description.getD ""))]
     else [])
  let withTimeline := withDescription ++
    (if event.timeline.length > 0 then
       [SlackBlock.section none (some ("*Timeline:*\n" ++ joinNl (numberItems event.timeline)))]
     else [])
  let withGuests := withTimeline ++
    (if event.guests.length > 0 then
       [SlackBlock.section none (some ("*📧 Guest List:*\n" ++ joinNl (bulletItems event.guests)))]
     else [])
  let blocks := withGuests ++
    [SlackBlock.divider,
     SlackBlock.context ("Event created by AI Event Planner • " ++ today)]
  { channel := (event.slackChannelId).getD "",
    text := "Event Plan: " ++ event.title,
    blocks := blocks }

/-! ## Rich-message decoders (handlers/slack.ts lines 402-480)

extractEventFromBlocks builds a dynamic object field by field; a field key
can be present with an undefined value (the label matched but the line
after it was missing), which still counts for the final any-key check, so
the scraped fields are two-level options: the outer level is key presence,
the inner level is value definedness. -/

/-- The partial reconstruction scraped back out of a rich message. -/
structure PartialPlan where
  title : Option String
  date : Option (Option String)
  budget : Option (Option String)
  venue : Option (Option String)
  timeline : Option (List String)
deriving DecidableEq

/-- The object before any field was scraped. -/
def emptyPartial : PartialPlan :=
  ⟨none, none, none, none, none⟩

/-- Object.keys(eventPlan).length > 0. -/
def hasAnyKey (p : PartialPlan) : Bool :=
  p.title.isSome || p.date.isSome || p.budget.isSome || p.venue.isSome || p.timeline.isSome

/-- Replace of the first regex match of the party-popper glyph followed by
optional whitespace (title.replace in the block decoder). -/
def stripGlyphAux : List Char → List Char
  | [] => []
  | c :: cs => if c = '🎉' then cs.dropWhile jsWs else c :: stripGlyphAux cs

/-- JS title.replace removing the decorative glyph and trailing whitespace. -/
def stripGlyph (s : String) : String :=
  String.mk (stripGlyphAux s.data)

/-- Index of the last newline of a whitespace run, for the backtracking
behavior of a greedy whitespace-class match that must end in a newline. -/
def lastNewlinePos (run : List Char) : Option Nat :=
  match List.findIdx? (fun c => c = '\n') run.reverse with
  | some i => some (run.length - 1 - i)
  | none => none

/-- Try the regex Timeline-label pattern (literal asterisk Timeline label,
whitespace run ending in a newline) at the head of the list: the remainder
after the match, or none. -/
def matchTimelineAt (cs : List Char) : Option (List Char) :=
  if ("*Timeline:*".data).isPrefixOf cs then
    let rest := cs.drop 11
    let run := rest.takeWhile jsWs
    match lastNewlinePos run with
    | some k => some (rest.drop (k + 1))
    | none => none
  else none

/-- Remove the first Timeline-label match, leftmost-first as String.replace
with a non-global regex does; the text is unchanged when nothing matches. -/
def replTimelineAux : List Char → List Char
  | [] => []
  | c :: cs =>
    match matchTimelineAt (c :: cs) with
    | some rem => rem
    | none => c :: replTimelineAux cs

/-- text.replace removing the Timeline label line prefix. -/
def replTimelineLabel (s : String) : String :=
  String.mk (replTimelineAux s.data)

/-- lines[1]?.trim() of a field text split on newlines. -/
def lineOneTrim (text : String) : Option String :=
  ((splitLinesS text).get? 1).map jsTrim

/-- budgetText?.replace stripping every dollar sign and comma. -/
def stripDollarComma (s : String) : String :=
  String.mk (s.data.filter (fun c => !(c == '$' || c == ',')))

/-- One field of a section fields array, matched by label in the fixed
order Date, Budget, Venue that the decoder checks. -/
def fieldStep (p : PartialPlan) (text : String) : PartialPlan :=
  if strIncludes text "Date:" then { p with date := some (lineOneTrim text) }
  else if strIncludes text "Budget:" then
    { p with budget := some ((lineOneTrim text).map stripDollarComma) }
  else if strIncludes text "Venue:" then { p with venue := some (lineOneTrim text) }
  else p

/-- The timeline lines scraped out of a Timeline section text. -/
def timelineLines (t : String) : List String :=
  ((splitLinesS (replTimelineLabel t)).map jsTrim).filter (fun line => line != "")

/-- One section block of the decoder loop: a fields section is scanned
field by field, a text section is only recognized as a timeline. -/
def sectionStep (p : PartialPlan) : SlackBlock → PartialPlan
  | SlackBlock.section (some fs) _ => fs.foldl fieldStep p
  | SlackBlock.section none (some t) =>
    if t ≠ "" ∧ strIncludes t "Timeline:" then { p with timeline := some (timelineLines t) }
    else p
  | _ => p

/-- Is this block a header block? -/
def isHeaderB : SlackBlock → Bool
  | SlackBlock.header _ => true
  | _ => false

/-- Is this block a section block? -/
def isSectionB : SlackBlock → Bool
  | SlackBlock.section _ _ => true
  | _ => false

/-- extractEventFromBlocks: title from the first header block when its text
is truthy (an empty header text is falsy and leaves the title key absent),
the labelled fields and the timeline from the section blocks in order,
null when no key at all was scraped. -/
def extractEventFromBlocks (blocks : List SlackBlock) : Option PartialPlan :=
  let p0 : PartialPlan :=
    match blocks.find? isHeaderB with
    | some (SlackBlock.header t) =>
      if t ≠ "" then { emptyPartial with title := some (jsTrim (stripGlyph t)) }
      else emptyPartial
    | _ => emptyPartial
  let p := (blocks.filter isSectionB).foldl sectionStep p0
  if hasAnyKey p then some p else none

/-! ## Text decoder (extractEventFromText, handlers/slack.ts lines 455-480) -/

/-- The suffix of a whitespace run after its last newline (the whole run
when it has none): the backtracking positions of a greedy whitespace match
feeding a one-or-more non-newline capture. -/
def suffixAfterLastNewline (run : List Char) : List Char :=
  (run.reverse.takeWhile (fun c => c ≠ '\n')).reverse

/-- First match of the title regex (glyph, optional whitespace, then a
non-empty non-newline capture), returning the captured characters. -/
def titleMatchAux : List Char → Option (List Char)
  | [] => none
  | c :: cs =>
    if c = '🎉' then
      let run := cs.takeWhile jsWs
      let rest := cs.drop run.length
      if rest ≠ [] then some (rest.takeWhile (fun c2 => c2 ≠ '\n'))
      else
        let suf := suffixAfterLastNewline run
        if suf ≠ [] then some suf else titleMatchAux cs
    else titleMatchAux cs

/-- The lazy any-character capture after its first character: stop at the
earliest spot where the rest is empty or starts a newline-asterisk
lookahead. -/
def lazyCapTake : List Char → List Char
  | [] => []
  | '\n' :: '*' :: _ => []
  | c :: rest => c :: lazyCapTake rest

/-- The lazy one-or-more capture: none when no character is available. -/
def lazyCapFrom : List Char → Option (List Char)
  | [] => none
  | c :: rest => some (c :: lazyCapTake rest)

/-- Try the text-timeline regex at the head of the list: Timeline label,
optional asterisk, whitespace ending in a newline, then the lazy capture up
to a newline-asterisk or the end. -/
def tryTimelineTextAt (cs : List Char) : Option (List Char) :=
  if ("Timeline:".data).isPrefixOf cs then
    let r0 := cs.drop 9
    let r1 :=
      match r0 with
      | '*' :: rest => rest
      | _ => r0
    let run := r1.takeWhile jsWs
    match lastNewlinePos run with
    | some k => lazyCapFrom (r1.drop (k + 1))
    | none => none
  else none

/-- Leftmost match of the text-timeline regex. -/
def timelineTextSearch : List Char → Option (List Char)
  | [] => none
  | c :: cs =>
    match tryTimelineTextAt (c :: cs) with
    | some cap => some cap
    | none => timelineTextSearch cs

/-- Does the line match a leading number-dot pattern? -/
def startsNumDot (s : String) : Bool :=
  let ds := s.data.takeWhile Char.isDigit
  ¬ds.isEmpty ∧ (s.data.drop ds.length).head? = some '.'

/-- extractEventFromText: title from the glyph line, timeline from the
numbered lines after a Timeline label, null when neither matched. -/
def extractEventFromText (text : String) : Option PartialPlan :=
  let title : Option String := (titleMatchAux text.data).map (fun cs => jsTrim (String.mk cs))
  let timeline : Option (List String) :=
    (timelineTextSearch text.data).map (fun cap =>
      ((splitLinesS (String.mk cap)).map jsTrim).filter
        (fun line => line != "" && startsNumDot line))
  let p : PartialPlan := { emptyPartial with title := title, timeline := timeline }
  if hasAnyKey p then some p else none

/-! ## Conversation context builder (handlers/slack.ts lines 325-397) -/

/-- A channel-history message as the scanner reads it. -/
structure SlackMsg where
  blocks : Option (List SlackBlock)
  text : Option String
deriving DecidableEq

/-- Does a block make the message look like an event plan: a header block
whose text carries the glyph or the words Party or Event? -/
def headerLooksEvent : SlackBlock → Bool
  | SlackBlock.header t => strIncludes t "🎉" || strIncludes t "Party" || strIncludes t "Event"
  | _ => false

/-- The plain-text plan markers of the fallback check. -/
def planTextMarkers (t : String) : Bool :=
  strIncludes t "Event Plan:" || strIncludes t "🎉" || strIncludes t "Timeline:"

/-- message.blocks is present and one block is a plan-looking header. -/
def msgHasEventHeader (m : SlackMsg) : Bool :=
  match m.blocks with
  | some bs => bs.any headerLooksEvent
  | none => false

/-- message.text is truthy and carries a plan marker. -/
def msgTextLooksPlan (m : SlackMsg) : Bool :=
  match m.text with
  | some t => t ≠ "" && planTextMarkers t
  | none => false

/-- findRecentEventPlan: scan in the given (newest-first) order, stop at the
first message recognizable as a plan and return its reconstruction, null
when none is recognizable. -/
def findRecentEventPlan : List SlackMsg → Option PartialPlan
  | [] => none
  | m :: rest =>
    if msgHasEventHeader m then extractEventFromBlocks ((m.blocks).getD [])
    else if msgTextLooksPlan m then extractEventFromText ((m.text).getD "")
    else findRecentEventPlan rest

/-- A message is recognizable as a plan (either branch of the scanner). -/
def msgRecognized (m : SlackMsg) : Bool :=
  msgHasEventHeader m || msgTextLooksPlan m

/-- The reconstruction the scanner returns for one recognizable message. -/
def msgExtract (m : SlackMsg) : Option PartialPlan :=
  if msgHasEventHeader m then extractEventFromBlocks ((m.blocks).getD [])
  else if msgTextLooksPlan m then extractEventFromText ((m.text).getD "")
  else none

/-- The body of the conversations.history response as the fetcher reads it. -/
structure HistoryResponse where
  ok : Option Bool
  messages : Option (List SlackMsg)
  error : Option String

/-- getRecentChannelMessages: a network failure (none) or a response without
ok true yields an empty list, otherwise the messages array (or an empty
list when it is missing). -/
def getRecentChannelMessages (fetched : Option HistoryResponse) : List SlackMsg :=
  match fetched with
  | none => []
  | some d => if d.ok = some true then (d.messages).getD [] else []

/-- The limit parameter the fetcher puts in the history request URL. -/
def historyRequestLimit : Nat := 5

/-- The platform contract for a successful history call: the channel
messages newest-first, honoring the requested limit. -/
def slackHistoryOk (channelNewestFirst : List SlackMsg) : HistoryResponse :=
  ⟨some true, some (channelNewestFirst.take historyRequestLimit), none⟩

/-! ## Chat handler decode path (handlers/chat.ts lines 79-134) -/

/-- Try the fenced-code-block regex body: optional whitespace, then a lazy
brace-delimited capture whose closing brace is followed by optional
whitespace and a closing fence. -/
def braceCap (acc : List Char) : List Char → Option (List Char)
  | [] => none
  | c :: rest =>
    if c = '\x7d' ∧ ("```".data).isPrefixOf (rest.dropWhile jsWs) then
      some (c :: acc).reverse
    else braceCap (c :: acc) rest

/-- After a fence (and optional json tag): skip whitespace and capture the
brace-delimited block. -/
def tryFenceBody (r : List Char) : Option (List Char) :=
  match r.dropWhile jsWs with
  | '\x7b' :: body => braceCap ['\x7b'] body
  | _ => none

/-- Try the whole fenced-block regex at the head of the list. -/
def codeBlockAt (cs : List Char) : Option (List Char) :=
  if ("```".data).isPrefixOf cs then
    let r := cs.drop 3
    if ("json".data).isPrefixOf r then
      match tryFenceBody (r.drop 4) with
      | some cap => some cap
      | none => tryFenceBody r
    else tryFenceBody r
  else none

/-- Leftmost match of the fenced-block regex, as String.match finds it. -/
def codeBlockSearch : List Char → Option (List Char)
  | [] => none
  | c :: cs =>
    match codeBlockAt (c :: cs) with
    | some cap => some cap
    | none => codeBlockSearch cs

/-- The text the chat handler feeds to JSON.parse: the captured fenced JSON
object when the regex matches, the full model output otherwise. -/
def chatExtractJson (responseText : String) : String :=
  match codeBlockSearch responseText.data with
  | some cap => String.mk cap
  | none => responseText

/-- The draft plan object the chat handler synthesizes: an id, the spread
of the model event object, then status draft and both timestamps. -/
def chatPlan (uuid now : String) (ev : Json) : List (String × Json) :=
  let spreaded := objSpread [("id", Json.str uuid)] ev
  objUpsert (objUpsert (objUpsert spreaded
    "status" (Json.str "draft"))
    "createdAt" (Json.str now))
    "updatedAt" (Json.str now)

/-- The two reply shapes of the chat endpoint: an approval-needing plan
reply, or the raw model text. -/
inductive ChatAction where
  | withPlan (responseField : Option Json) (plan : List (String × Json))
  | plain (text : String)

/-- handleChatRequest decode path: extract the fenced JSON if present,
parse, and only a parsed object with the create_event action marker and a
truthy event becomes a plan reply; everything else is the raw text. -/
def chatRespond (uuid now : String) (responseText : String) : ChatAction :=
  let jsonText := chatExtractJson responseText
  match jsonParse jsonText with
  | some parsed =>
    if isCreateEventAction (jGet parsed "action") && jOptTruthy (jGet parsed "event") then
      ChatAction.withPlan (jGet parsed "response")
        (chatPlan uuid now ((jGet parsed "event").getD Json.null))
    else ChatAction.plain responseText
  | none => ChatAction.plain responseText

/-! ## Mention handler decode path (handlers/slack.ts lines 257-295) -/

/-- The plan object the mention handler synthesizes: an id, the spread of
the model event object, then status draft, the mention channel as the
destination, and both timestamps. -/
def mentionPlan (channel uuid now : String) (ev : Json) : List (String × Json) :=
  let spreaded := objSpread [("id", Json.str uuid)] ev
  objUpsert (objUpsert (objUpsert (objUpsert spreaded
    "status" (Json.str "draft"))
    "slackChannelId" (Json.str channel))
    "createdAt" (Json.str now))
    "updatedAt" (Json.str now)

/-- What the mention handler does with the model output: post a rich plan
message, or post the raw text as a plain message. -/
inductive MentionAction where
  | richPlan (plan : List (String × Json))
  | plainText (text : String)

/-- handleSlackMention decode path: JSON.parse of the whole model output
(no fenced-block extraction at this call site), the same action-marker
check, and the raw text as a plain message on any decode failure. -/
def mentionRespond (channel uuid now : String) (aiResponse : String) : MentionAction :=
  match jsonParse aiResponse with
  | some parsed =>
    if isCreateEventAction (jGet parsed "action") && jOptTruthy (jGet parsed "event") then
      MentionAction.richPlan (mentionPlan channel uuid now ((jGet parsed "event").getD Json.null))
    else MentionAction.plainText aiResponse
  | none => MentionAction.plainText aiResponse

/-- A string field of a synthesized plan object. -/
def planStrField (fields : List (String × Json)) (key : String) : Option String :=
  match objLookup fields key with
  | some (Json.str s) => some s
  | _ => none

/-- The plan of a mention action, when it posts one. -/
def mentionPlanOf : MentionAction → Option (List (String × Json))
  | MentionAction.richPlan p => some p
  | _ => none

/-- The plain text of a mention action, when it posts one. -/
def mentionPlainOf : MentionAction → Option String
  | MentionAction.plainText t => some t
  | _ => none

/-- The plan of a chat action, when it carries one. -/
def chatPlanOf : ChatAction → Option (List (String × Json))
  | ChatAction.withPlan _ p => some p
  | _ => none

/-- The plain text of a chat action, when it is one. -/
def chatPlainOf : ChatAction → Option String
  | ChatAction.plain t => some t
  | _ => none

/-! ## Webhook entry point (handleSlackWebhook, handlers/slack.ts lines 43-117)

The request body is given as the raw string the handler read; the result
of JSON.parse on it is passed alongside (none for a malformed payload,
whose SyntaxError the handler logs and absorbs).  A handler-internal throw
after the payload guard is also absorbed by the same catch, so the model
folds those paths into the 200 branch; only a transport failure while
reading the body (outside this model) reaches the outer 500 catch. -/

/-- JS strict equality of a possibly-undefined property with a string
literal. -/
def isStrEq : Option Json → String → Bool
  | some (Json.str s), lit => s = lit
  | _, _ => false

/-- JS number-to-string for the integers this model parses. -/
def intRepr (n : Int) : String :=
  if n < 0 then "-" ++ natRepr n.natAbs else natRepr n.natAbs

mutual

/-- JS ToString of a JSON value, as the Response constructor applies it to
a non-null body: strings pass through, numbers and booleans render,
arrays join their elements with commas, plain objects become the
object-Object tag. -/
def jsDisplay : Json → String
  | Json.null => "null"
  | Json.bool b => if b then "true" else "false"
  | Json.num n => intRepr n
  | Json.str s => s
  | Json.arr xs => jsDisplayList xs
  | Json.obj _ => "[object Object]"

/-- One array element under Array.prototype.toString: null renders empty. -/
def jsDisplayElem : Json → String
  | Json.null => ""
  | Json.bool b => if b then "true" else "false"
  | Json.num n => intRepr n
  | Json.str s => s
  | Json.arr xs => jsDisplayList xs
  | Json.obj _ => "[object Object]"

/-- Array elements joined with commas. -/
def jsDisplayList : List Json → String
  | [] => ""
  | [x] => jsDisplayElem x
  | x :: rest => jsDisplayElem x ++ "," ++ jsDisplayList rest

end

/-- The body of the url_verification response, new Response(payload.challenge):
a missing or null challenge gives an empty body; any other value is
coerced to its string form. -/
def challengeBody : Option Json → String
  | none => ""
  | some Json.null => ""
  | some j => jsDisplay j

/-- The keyword list of handleSlackMessage. -/
def keywordList : List String := ["plan", "event", "party", "meeting", "celebration"]

/-- Does the lowercased text carry an event-planning keyword? -/
def hasEventKeyword (text : String) : Bool :=
  keywordList.any (fun k => strIncludes (lowerStr text) k)

/-- How many model-inference calls handleSlackMessage makes for a given
text value: one when the text is a string with a keyword; a non-string
truthy text throws before the call (absorbed upstream) and makes none. -/
def handleSlackMessageCalls (text : Option Json) : Nat :=
  match text with
  | some (Json.str s) => if hasEventKeyword s then 1 else 0
  | _ => 0

/-- How many model-inference calls handleSlackMention makes for a given
text value: always exactly one once the text is a string (the context
fetch is not an inference call); a non-string text throws before it. -/
def handleSlackMentionCalls (text : Option Json) : Nat :=
  match text with
  | some (Json.str _) => 1
  | _ => 0

/-- The inference calls made while dispatching one event_callback event
object: the user-message branch needs type message, no truthy bot_id and a
truthy text; the mention branch needs type app_mention and a truthy text. -/
def eventAiCalls (ev : Json) : Nat :=
  let isMsg := isStrEq (jGet ev "type") "message"
    && !jOptTruthy (jGet ev "bot_id") && jOptTruthy (jGet ev "text")
  let isMention := isStrEq (jGet ev "type") "app_mention" && jOptTruthy (jGet ev "text")
  (if isMsg then handleSlackMessageCalls (jGet ev "text") else 0)
    + (if isMention then handleSlackMentionCalls (jGet ev "text") else 0)

/-- The observable outcome of one webhook request: HTTP status, response
body, and how many model-inference calls were made. -/
structure WebhookResult where
  status : Nat
  body : String
  aiCalls : Nat
deriving DecidableEq

/-- handleSlackWebhook: signature verification when a signing secret is
configured (401 on failure), the url_verification echo, event dispatch,
and 200 OK on every other path including an unparseable payload. -/
def handleSlackWebhook
    (hmacHex : String → String → String) (currentTime : Int)
    (signingSecret : Option String)
    (tsHeader sigHeader : Option String)
    (body : String)
    (parsed : Option Json) : WebhookResult :=
  let verified :=
    if truthyS signingSecret then
      verifySlackSignature hmacHex currentTime (signingSecret.getD "")
        (tsHeader.getD "") body (sigHeader.getD "")
    else true
  if ¬verified then ⟨401, "Invalid signature", 0⟩
  else
    match parsed with
    | none => ⟨200, "OK", 0⟩
    | some payload =>
      if isStrEq (jGet payload "type") "url_verification" then
        ⟨200, challengeBody (jGet payload "challenge"), 0⟩
      else if isStrEq (jGet payload "type") "event_callback"
          && jOptTruthy (jGet payload "event") then
        ⟨200, "OK", eventAiCalls ((jGet payload "event").getD Json.null)⟩
      else ⟨200, "OK", 0⟩

/-! ## Approval endpoint (handleEventApproval, handlers/events.ts lines 12-83) -/

/-- The result of the chat.postMessage delivery call. -/
structure PostResult where
  ok : Bool
  error : Option String
deriving DecidableEq

/-- The observable outcome of one approval request: HTTP status, the JSON
body fields, the plan object as the handler leaves it, and how many
delivery calls were made. -/
structure ApprovalResponse where
  status : Nat
  success : Bool
  message : Option String
  error : Option String
  returnedPlan : Option EventPlan
  planState : EventPlan
  deliveryCalls : Nat
deriving DecidableEq

/-- handleEventApproval: a disapproval returns a discard acknowledgment and
touches nothing; an approval stamps status approved, and when a channel
and a bot token are both present attempts one delivery, promoting to
sent_to_slack on success and reporting the delivery error (status stays
approved) on failure.  now stands for new Date().toISOString(); postResult
for the recorded delivery outcome. -/
def handleEventApproval (eventPlan : EventPlan) (slackChannelId : Option String)
    (approved : Bool) (slackBotToken : Option String) (now : String)
    (postResult : PostResult) : ApprovalResponse :=
  if ¬approved then
    ⟨200, true, some "Event plan discarded", none, none, eventPlan, 0⟩
  else
    let p1 := { eventPlan with status := EventStatus.approved, updatedAt := now }
    if truthyS slackChannelId ∧ truthyS slackBotToken then
      let p2 := { p1 with slackChannelId := slackChannelId }
      if postResult.ok then
        let p3 := { p2 with status := EventStatus.sent_to_slack, updatedAt := now }
        ⟨200, true, some "Event plan approved and sent to Slack!", none, some p3, p3, 1⟩
      else
        ⟨400, false, none,
         some ("Failed to post to Slack: " ++ (postResult.error).getD "undefined"),
         some p2, p2, 1⟩
    else
      ⟨200, true, some "Event plan approved!", none, some p1, p1, 0⟩

/-! ## Concrete inputs used to instantiate and to refute the claims -/

/-- A representable-subset plan: title, date, budget, venue, non-empty
timeline, no guests, no description. -/
def c1Plan : EventPlan :=
  { id := "e1", title := "Company Party", date := "2025-06-14", time := none,
    guests := [], timeline := ["setup", "cleanup"], budget := 1000,
    venue := some "Roof", description := none, eventType := none,
    status := EventStatus.draft, slackChannelId := some "C1",
    createdAt := "t0", updatedAt := "t0" }

/-- A bare-JSON model output carrying the create_event envelope. -/
def c2ModelOutput : String :=
  "\x7b\"action\":\"create_event\",\"event\":\x7b\"title\":\"Offsite\"\x7d\x7d"

/-- A model output wrapping the create_event envelope in a fenced json code
block, with prose around it. -/
def c4FencedOutput : String :=
  "Sure! Here is the plan:\n```json\n\x7b\"action\": \"create_event\", \"event\": \x7b\"title\": \"Picnic\"\x7d\x7d\n```"

/-- Five channel messages, newest first; only the third carries a plan
(its header text contains the word Party). -/
def c8Messages : List SlackMsg :=
  [⟨none, some "hello team"⟩,
   ⟨some [SlackBlock.section none (some "random note")], some "lunch?"⟩,
   ⟨some (formatEventMessage c1Plan "1/1/2025").blocks, some "Event Plan: Company Party"⟩,
   ⟨none, some "ok"⟩,
   ⟨none, none⟩]

/-- An event_callback payload whose message event carries a bot_id. -/
def c9BotPayload : Json :=
  Json.obj [("type", Json.str "event_callback"),
    ("event", Json.obj [("type", Json.str "message"), ("bot_id", Json.str "B9"),
      ("text", Json.str "let us plan a party"), ("channel", Json.str "C1")])]

/-- A plan as the approval endpoint receives it. -/
def c6Plan : EventPlan :=
  { id := "e2", title := "Offsite", date := "2025-03-01", time := none,
    guests := ["ann"], timeline := ["book"], budget := 500,
    venue := none, description := none, eventType := none,
    status := EventStatus.draft, slackChannelId := none,
    createdAt := "t0", updatedAt := "t0" }

/-! ## Shared lemmas: substring search, line splitting, trimming -/

theorem stringMk_data (s : String) : String.mk s.data = s := by
  cases s
  rfl

theorem str_ne_empty_of_data {s : String} (h : s.data ≠ []) : s ≠ "" := by
  intro he
  subst he
  exact h rfl

theorem containsSub_of_isPrefixOf {pat l : List Char} (h : pat.isPrefixOf l = true) :
    containsSub pat l = true := by
  cases l with
  | nil =>
    cases pat with
    | nil => rfl
    | cons c cs => simp [List.isPrefixOf] at h
  | cons c cs => simp [containsSub, h]

theorem containsSub_cons {pat l : List Char} (c : Char) (h : containsSub pat l = true) :
    containsSub pat (c :: l) = true := by
  simp [containsSub, h]

theorem containsSub_append_left {pat l : List Char} (t : List Char)
    (h : containsSub pat l = true) : containsSub pat (l ++ t) = true := by
  induction l with
  | nil =>
    have hp : pat = [] := by simpa [containsSub, List.isEmpty_iff] using h
    subst hp
    exact containsSub_of_isPrefixOf (by simp [List.isPrefixOf_iff_prefix])
  | cons c cs ih =>
    rw [containsSub] at h
    rw [show (c :: cs) ++ t = c :: (cs ++ t) from rfl, containsSub]
    rcases Bool.or_eq_true_iff.mp h with hpre | hrest
    · exact Bool.or_eq_true_iff.mpr (Or.inl (List.isPrefixOf_iff_prefix.mpr
        ((List.isPrefixOf_iff_prefix.mp hpre).trans (List.prefix_append _ _))))
    · exact Bool.or_eq_true_iff.mpr (Or.inr (ih hrest))

theorem strIncludes_append_left (s t pat : String) (h : strIncludes s pat = true) :
    strIncludes (s ++ t) pat = true := by
  unfold strIncludes at *
  rw [String.data_append]
  exact containsSub_append_left _ h

theorem containsSub_not_mem_head {pc : Char} {pr l : List Char} (h : pc ∉ l) :
    containsSub (pc :: pr) l = false := by
  induction l with
  | nil => rfl
  | cons c cs ih =>
    have hne : (pc == c) = false := by
      simp only [beq_eq_false_iff_ne, ne_eq]
      intro he
      exact h (he ▸ List.mem_cons_self c cs)
    have hcs : pc ∉ cs := fun hm => h (List.mem_cons_of_mem c hm)
    simp [containsSub, List.isPrefixOf, hne, ih hcs]

theorem containsSub_append_no_head {pc : Char} {pr : List Char} (pre l : List Char)
    (h : pc ∉ pre) : containsSub (pc :: pr) (pre ++ l) = containsSub (pc :: pr) l := by
  induction pre with
  | nil => rfl
  | cons c cs ih =>
    have hne : (pc == c) = false := by
      simp only [beq_eq_false_iff_ne, ne_eq]
      intro he
      exact h (he ▸ List.mem_cons_self c cs)
    have hcs : pc ∉ cs := fun hm => h (List.mem_cons_of_mem c hm)
    simp [containsSub, List.isPrefixOf, hne, ih hcs]

theorem splitLines_noNl {l : List Char} (h : '\n' ∉ l) : splitLines l = [l] := by
  induction l with
  | nil => rfl
  | cons c cs ih =>
    have hc : ¬(c = '\n') := fun he => h (he ▸ List.mem_cons_self c cs)
    have hcs : '\n' ∉ cs := fun hm => h (List.mem_cons_of_mem c hm)
    simp [splitLines, hc, ih hcs]

theorem splitLines_append {pre : List Char} (rest : List Char) (h : '\n' ∉ pre) :
    splitLines (pre ++ '\n' :: rest) = pre :: splitLines rest := by
  induction pre with
  | nil => simp [splitLines]
  | cons c cs ih =>
    have hc : ¬(c = '\n') := fun he => h (he ▸ List.mem_cons_self c cs)
    have hcs : '\n' ∉ cs := fun hm => h (List.mem_cons_of_mem c hm)
    simp [splitLines, hc, ih hcs]

theorem dropWhile_eq_self_headI {p : Char → Bool} {l : List Char} (hne : l ≠ [])
    (h : p l.headI = false) : l.dropWhile p = l := by
  cases l with
  | nil => rfl
  | cons a t =>
    simp only [List.headI] at h
    simp [List.dropWhile_cons, h]

theorem trimChars_eq_self {l : List Char} (hne : l ≠ []) (h1 : jsWs l.headI = false)
    (h2 : jsWs l.reverse.headI = false) : trimChars l = l := by
  unfold trimChars
  rw [dropWhile_eq_self_headI hne h1,
      dropWhile_eq_self_headI (by simpa [List.reverse_eq_nil_iff] using hne) h2,
      List.reverse_reverse]

/-! ## Shared lemmas: digit strings, grouping, date rendering -/

theorem digitChar_isDigit (k : Nat) : (digitChar k).isDigit = true := by
  rcases k with _ | _ | _ | _ | _ | _ | _ | _ | _ | k <;> rfl

theorem natDigitsAux_digits :
    ∀ (fuel n : Nat) (c : Char), c ∈ natDigitsAux fuel n → c.isDigit = true
  | 0, n, c => by simp [natDigitsAux]
  | fuel + 1, n, c => by
    rw [natDigitsAux]
    split
    · intro hc
      rw [List.mem_singleton.mp hc]
      exact digitChar_isDigit n
    · intro hc
      rcases List.mem_append.mp hc with hl | hr
      · exact natDigitsAux_digits fuel (n / 10) c hl
      · rw [List.mem_singleton.mp hr]
        exact digitChar_isDigit (n % 10)

theorem natRepr_chars {n : Nat} {c : Char} (h : c ∈ (natRepr n).data) : c.isDigit = true :=
  natDigitsAux_digits (n + 1) n c h

theorem natDigitsAux_ne_nil (fuel n : Nat) (hf : fuel ≠ 0) : natDigitsAux fuel n ≠ [] := by
  cases fuel with
  | zero => exact absurd rfl hf
  | succ f =>
    rw [natDigitsAux]
    split
    · simp
    · simp

theorem natRepr_ne_nil (n : Nat) : (natRepr n).data ≠ [] :=
  natDigitsAux_ne_nil (n + 1) n (Nat.succ_ne_zero n)

theorem isDigit_ne {c d : Char} (h : c.isDigit = true) (hd : d.isDigit = false) : c ≠ d := by
  intro he
  subst he
  rw [h] at hd
  cases hd

theorem jsWs_of_isDigit {c : Char} (h : c.isDigit = true) : jsWs c = false := by
  cases hw : jsWs c
  · rfl
  · exfalso
    have hm := hw
    simp only [jsWs, Bool.or_eq_true, decide_eq_true_eq] at hm
    rcases hm with ((((rfl | rfl) | rfl) | rfl) | rfl) | rfl <;> exact absurd h (by decide)

theorem group3_mem : ∀ (l : List Char) (x : Char), x ∈ group3 l → x ∈ l ∨ x = ','
  | [], x => by simp [group3]
  | [a], x => by simp [group3]; tauto
  | [a, b], x => by simp [group3]; tauto
  | [a, b, c], x => by simp [group3]; tauto
  | a :: b :: c :: d :: rest, x => by
    rw [group3]
    intro h
    simp only [List.mem_cons] at h ⊢
    rcases h with h | h | h | h | h
    · exact Or.inl (Or.inl h)
    · exact Or.inl (Or.inr (Or.inl h))
    · exact Or.inl (Or.inr (Or.inr (Or.inl h)))
    · exact Or.inr h
    · rcases group3_mem (d :: rest) x h with hm | hc
      · rcases List.mem_cons.mp hm with h4 | h5
        · exact Or.inl (Or.inr (Or.inr (Or.inr (Or.inl h4))))
        · exact Or.inl (Or.inr (Or.inr (Or.inr (Or.inr h5))))
      · exact Or.inr hc

theorem group3_filter (p : Char → Bool) (hp : p ',' = false) :
    ∀ l : List Char, (group3 l).filter p = l.filter p
  | [] => rfl
  | [a] => rfl
  | [a, b] => rfl
  | [a, b, c] => rfl
  | a :: b :: c :: d :: rest => by
    rw [group3]
    simp [List.filter_cons, hp, group3_filter p hp (d :: rest)]

theorem group3_ne_nil : ∀ {l : List Char}, l ≠ [] → group3 l ≠ []
  | [], h => absurd rfl h
  | [a], _ => by simp [group3]
  | [a, b], _ => by simp [group3]
  | [a, b, c], _ => by simp [group3]
  | a :: b :: c :: d :: rest, _ => by rw [group3]; simp

theorem natToLocale_chars {n : Nat} {c : Char} (h : c ∈ (natToLocale n).data) :
    c.isDigit = true ∨ c = ',' := by
  unfold natToLocale at h
  rw [show (String.mk ((group3 (natRepr n).data.reverse).reverse)).data
      = (group3 (natRepr n).data.reverse).reverse from rfl] at h
  rcases group3_mem _ _ (List.mem_reverse.mp h) with hm | hc
  · exact Or.inl (natRepr_chars (List.mem_reverse.mp hm))
  · exact Or.inr hc

theorem natToLocale_ne_nil (n : Nat) : (natToLocale n).data ≠ [] := by
  unfold natToLocale
  rw [show (String.mk ((group3 (natRepr n).data.reverse).reverse)).data
      = (group3 (natRepr n).data.reverse).reverse from rfl]
  simp only [ne_eq, List.reverse_eq_nil_iff]
  exact group3_ne_nil (by simpa [List.reverse_eq_nil_iff] using natRepr_ne_nil n)

theorem natToLocale_noWs {n : Nat} {c : Char} (h : c ∈ (natToLocale n).data) :
    jsWs c = false := by
  rcases natToLocale_chars h with hd | hc
  · exact jsWs_of_isDigit hd
  · subst hc
    rfl

theorem filterDC_natToLocale (b : Nat) :
    ((natToLocale b).data).filter (fun c => !(c == '$' || c == ',')) = (natRepr b).data := by
  unfold natToLocale
  rw [show (String.mk ((group3 (natRepr b).data.reverse).reverse)).data
      = (group3 (natRepr b).data.reverse).reverse from rfl]
  rw [List.filter_reverse, group3_filter _ (by rfl), List.filter_reverse,
      List.reverse_reverse]
  exact List.filter_eq_self.mpr (fun a ha => by
    have hd := natRepr_chars ha
    simp only [Bool.not_eq_true', Bool.or_eq_false_iff, beq_eq_false_iff_ne, ne_eq]
    constructor
    · intro he
      subst he
      exact absurd hd (by decide)
    · intro he
      subst he
      exact absurd hd (by decide))

theorem stripDollar_natToLocale (b : Nat) :
    stripDollarComma ("$" ++ natToLocale b) = natRepr b := by
  unfold stripDollarComma
  rw [show ("$" ++ natToLocale b).data = '$' :: (natToLocale b).data by
    rw [String.data_append]
    rfl]
  rw [List.filter_cons]
  rw [if_neg (by decide), filterDC_natToLocale, stringMk_data]

theorem headI_append {l t : List Char} (h : l ≠ []) : (l ++ t).headI = l.headI := by
  cases l with
  | nil => exact absurd rfl h
  | cons a r => rfl

theorem headI_mem {l : List Char} (h : l ≠ []) : l.headI ∈ l := by
  cases l with
  | nil => exact absurd rfl h
  | cons a r => exact List.mem_cons_self a r

theorem weekdayName_ne_nil (w : Nat) : (weekdayName w).data ≠ [] := by
  rcases w with _ | _ | _ | _ | _ | _ | w
  · decide
  · decide
  · decide
  · decide
  · decide
  · decide
  · exact (by decide : ("Saturday" : String).data ≠ [])

theorem weekdayName_noNl (w : Nat) : '\n' ∉ (weekdayName w).data := by
  rcases w with _ | _ | _ | _ | _ | _ | w
  · decide
  · decide
  · decide
  · decide
  · decide
  · decide
  · exact (by decide : '\n' ∉ ("Saturday" : String).data)

theorem weekdayName_headI (w : Nat) : jsWs (weekdayName w).data.headI = false := by
  rcases w with _ | _ | _ | _ | _ | _ | w <;> rfl

theorem monthName_noNl (m : Nat) : '\n' ∉ (monthName m).data := by
  rcases m with _ | _ | _ | _ | _ | _ | _ | _ | _ | _ | _ | _ | _ | m
  · decide
  · decide
  · decide
  · decide
  · decide
  · decide
  · decide
  · decide
  · decide
  · decide
  · decide
  · decide
  · decide
  · exact (by decide : '\n' ∉ ("" : String).data)

/-- The data of the long-date rendering in the valid-date branch. -/
theorem formatLongDate_some {s : String} {y m d : Nat} (h : parseIsoDate s = some (y, m, d)) :
    (formatLongDate s).data
      = (weekdayName (sakamoto y m d)).data ++ (", ").data ++ (monthName m).data
        ++ (" ").data ++ (natRepr d).data ++ (", ").data ++ (natRepr y).data := by
  simp only [formatLongDate, h, String.data_append]

theorem formatLongDate_noNl (s : String) : '\n' ∉ (formatLongDate s).data := by
  rcases hp : parseIsoDate s with _ | t
  · simp only [formatLongDate, hp]
    decide
  · obtain ⟨y, m, d⟩ := t
    rw [formatLongDate_some hp]
    simp only [List.mem_append, not_or]
    refine ⟨⟨⟨⟨⟨⟨weekdayName_noNl _, by decide⟩, monthName_noNl m⟩, by decide⟩, ?_⟩, by decide⟩, ?_⟩
    · intro hm
      exact absurd (natRepr_chars hm) (by decide)
    · intro hm
      exact absurd (natRepr_chars hm) (by decide)

theorem formatLongDate_ne_nil (s : String) : (formatLongDate s).data ≠ [] := by
  rcases hp : parseIsoDate s with _ | t
  · simp only [formatLongDate, hp]
    decide
  · obtain ⟨y, m, d⟩ := t
    rw [formatLongDate_some hp]
    simp [weekdayName_ne_nil (sakamoto y m d)]

theorem formatLongDate_trim (s : String) : jsTrim (formatLongDate s) = formatLongDate s := by
  rcases hp : parseIsoDate s with _ | t
  · simp only [formatLongDate, hp]
    decide
  · obtain ⟨y, m, d⟩ := t
    have hdata := formatLongDate_some hp
    have hne : (formatLongDate s).data ≠ [] := formatLongDate_ne_nil s
    have h1 : jsWs (formatLongDate s).data.headI = false := by
      rw [hdata]
      rw [headI_append (by simp [weekdayName_ne_nil (sakamoto y m d)]),
          headI_append (by simp [weekdayName_ne_nil (sakamoto y m d)]),
          headI_append (by simp [weekdayName_ne_nil (sakamoto y m d)]),
          headI_append (by simp [weekdayName_ne_nil (sakamoto y m d)]),
          headI_append (by simp [weekdayName_ne_nil (sakamoto y m d)]),
          headI_append (weekdayName_ne_nil (sakamoto y m d))]
      exact weekdayName_headI (sakamoto y m d)
    have h2 : jsWs (formatLongDate s).data.reverse.headI = false := by
      rw [hdata, List.reverse_append]
      rw [headI_append (by simp [natRepr_ne_nil y])]
      have hmem : ((natRepr y).data.reverse).headI ∈ (natRepr y).data := by
        rw [← List.mem_reverse]
        exact headI_mem (by simp [natRepr_ne_nil y])
      exact jsWs_of_isDigit (natRepr_chars hmem)
    unfold jsTrim
    rw [trimChars_eq_self hne h1 h2, stringMk_data]

/-! ## Shared lemmas: field scraping on encoder output -/

/-- A non-empty single-line string with no leading or trailing whitespace:
the shape under which a scraped field survives the split-trim pipeline
unchanged. -/
def flatStr (s : String) : Prop :=
  s.data ≠ [] ∧ '\n' ∉ s.data ∧ jsWs s.data.headI = false ∧ jsWs s.data.reverse.headI = false

theorem flatStr_trim {s : String} (h : flatStr s) : jsTrim s = s := by
  obtain ⟨hne, _, h1, h2⟩ := h
  unfold jsTrim
  rw [trimChars_eq_self hne h1 h2, stringMk_data]

theorem lineOneTrim_concat {pre val : String} (hpre : '\n' ∉ pre.data)
    (hval : '\n' ∉ val.data) : lineOneTrim (pre ++ "\n" ++ val) = some (jsTrim val) := by
  unfold lineOneTrim splitLinesS
  rw [show ((pre ++ "\n" ++ val)).data = pre.data ++ '\n' :: val.data by
    rw [String.data_append, String.data_append, List.append_assoc]
    rfl]
  rw [splitLines_append _ hpre, splitLines_noNl hval]
  simp [stringMk_data]

theorem fieldStep_date (p : PartialPlan) (s : String) :
    fieldStep p ("*Date:*\n" ++ formatLongDate s)
      = { p with date := some (some (formatLongDate s)) } := by
  have hinc : strIncludes ("*Date:*\n" ++ formatLongDate s) "Date:" = true := by
    rw [show ("*Date:*\n" ++ formatLongDate s) = "*Date:*" ++ "\n" ++ formatLongDate s from rfl]
    exact strIncludes_append_left _ _ _
      (strIncludes_append_left "*Date:*" "\n" "Date:" (by decide))
  rw [fieldStep, if_pos hinc]
  rw [show ("*Date:*\n" ++ formatLongDate s) = "*Date:*" ++ "\n" ++ formatLongDate s from rfl]
  rw [lineOneTrim_concat (by decide) (formatLongDate_noNl s), formatLongDate_trim]

theorem fieldStep_guests_tbd (p : PartialPlan) :
    fieldStep p "*Expected Guests:*\nTBD" = p := by
  rw [fieldStep, if_neg (by decide), if_neg (by decide), if_neg (by decide)]

theorem natToLocale_noNl (n : Nat) : '\n' ∉ (natToLocale n).data := by
  intro h
  have := natToLocale_noWs h
  simp [jsWs] at this

theorem fieldStep_budget (p : PartialPlan) (b : Nat) :
    fieldStep p ("*Budget:*\n$" ++ natToLocale b)
      = { p with budget := some (some (natRepr b)) } := by
  have hdata : ("*Budget:*\n$" ++ natToLocale b).data
      = "*Budget:*\n$".data ++ (natToLocale b).data := String.data_append _ _
  have hnoD : 'D' ∉ ("*Budget:*\n$" ++ natToLocale b).data := by
    rw [hdata]
    intro hm
    rcases List.mem_append.mp hm with hl | hr
    · exact absurd hl (by decide)
    · rcases natToLocale_chars hr with hdig | hc
      · exact absurd hdig (by decide)
      · cases hc
  have hdateF : strIncludes ("*Budget:*\n$" ++ natToLocale b) "Date:" = false := by
    unfold strIncludes
    rw [show ("Date:" : String).data = 'D' :: "ate:".data from rfl]
    exact containsSub_not_mem_head hnoD
  have hbudT : strIncludes ("*Budget:*\n$" ++ natToLocale b) "Budget:" = true := by
    rw [show ("*Budget:*\n$" ++ natToLocale b)
        = "*Budget:*\n$" ++ natToLocale b from rfl]
    exact strIncludes_append_left _ _ _ (by decide)
  rw [fieldStep, if_neg (by rw [hdateF]; exact Bool.false_ne_true), if_pos hbudT]
  have hsplit : lineOneTrim ("*Budget:*\n$" ++ natToLocale b)
      = some (jsTrim ("$" ++ natToLocale b)) := by
    show lineOneTrim ("*Budget:*" ++ "\n" ++ ("$" ++ natToLocale b))
      = some (jsTrim ("$" ++ natToLocale b))
    refine lineOneTrim_concat (by decide) ?_
    rw [String.data_append]
    intro hm
    rcases List.mem_append.mp hm with hl | hr
    · exact absurd hl (by decide)
    · exact natToLocale_noNl b hr
  have htrim : jsTrim ("$" ++ natToLocale b) = "$" ++ natToLocale b := by
    refine flatStr_trim ⟨?_, ?_, ?_, ?_⟩
    · rw [String.data_append]
      simp
    · rw [String.data_append]
      intro hm
      rcases List.mem_append.mp hm with hl | hr
      · exact absurd hl (by decide)
      · exact natToLocale_noNl b hr
    · rw [String.data_append]
      rw [headI_append (by decide)]
      rfl
    · rw [String.data_append, List.reverse_append]
      rw [headI_append (by simpa [List.reverse_eq_nil_iff] using natToLocale_ne_nil b)]
      exact @natToLocale_noWs b _ (by
        rw [← List.mem_reverse]
        exact headI_mem (by simpa [List.reverse_eq_nil_iff] using natToLocale_ne_nil b))
  rw [hsplit]
  simp only [Option.map_some']
  rw [htrim, stripDollar_natToLocale]

theorem fieldStep_venue (p : PartialPlan) (v : String) (hflat : flatStr v)
    (hd : strIncludes v "Date:" = false) (hb : strIncludes v "Budget:" = false) :
    fieldStep p ("*Venue:*\n" ++ v) = { p with venue := some (some v) } := by
  have hdata : ("*Venue:*\n" ++ v).data = "*Venue:*\n".data ++ v.data :=
    String.data_append _ _
  have hdateF : strIncludes ("*Venue:*\n" ++ v) "Date:" = false := by
    unfold strIncludes
    rw [hdata, show ("Date:" : String).data = 'D' :: "ate:".data from rfl]
    rw [containsSub_append_no_head _ _ (by decide)]
    exact hd
  have hbudF : strIncludes ("*Venue:*\n" ++ v) "Budget:" = false := by
    unfold strIncludes
    rw [hdata, show ("Budget:" : String).data = 'B' :: "udget:".data from rfl]
    rw [containsSub_append_no_head _ _ (by decide)]
    exact hb
  have hvenT : strIncludes ("*Venue:*\n" ++ v) "Venue:" = true :=
    strIncludes_append_left _ _ _ (by decide)
  rw [fieldStep, if_neg (by rw [hdateF]; exact Bool.false_ne_true),
      if_neg (by rw [hbudF]; exact Bool.false_ne_true), if_pos hvenT]
  rw [show ("*Venue:*\n" ++ v) = "*Venue:*" ++ "\n" ++ v from rfl]
  rw [lineOneTrim_concat (by decide) hflat.2.1, flatStr_trim hflat]

/-! ## Shared lemmas: the timeline block round trip -/

theorem numberItemsFrom_mem :
    ∀ (k : Nat) (tl : List String) (x : String), x ∈ numberItemsFrom k tl →
      ∃ (j : Nat) (item : String), item ∈ tl ∧ x = natRepr j ++ ". " ++ item
  | k, [], x => by simp [numberItemsFrom]
  | k, item :: rest, x => by
    rw [numberItemsFrom]
    intro h
    rcases List.mem_cons.mp h with he | hm
    · exact ⟨k + 1, item, List.mem_cons_self _ _, he⟩
    · obtain ⟨j, it, hit, he⟩ := numberItemsFrom_mem (k + 1) rest x hm
      exact ⟨j, it, List.mem_cons_of_mem _ hit, he⟩

theorem numbered_data {j : Nat} {item : String} :
    (natRepr j ++ ". " ++ item).data = (natRepr j).data ++ (". ").data ++ item.data := by
  rw [String.data_append, String.data_append]

theorem numbered_noNl {j : Nat} {item : String} (h : '\n' ∉ item.data) :
    '\n' ∉ (natRepr j ++ ". " ++ item).data := by
  rw [numbered_data]
  intro hm
  rcases List.mem_append.mp hm with hm1 | hm2
  · rcases List.mem_append.mp hm1 with ha | hb
    · exact absurd (natRepr_chars ha) (by decide)
    · exact absurd hb (by decide)
  · exact h hm2

theorem numbered_flat {j : Nat} {item : String} (h : flatStr item) :
    flatStr (natRepr j ++ ". " ++ item) := by
  obtain ⟨hne, hnl, hh, hl⟩ := h
  refine ⟨?_, numbered_noNl hnl, ?_, ?_⟩
  · rw [numbered_data]
    simp [natRepr_ne_nil j]
  · rw [numbered_data, List.append_assoc]
    rw [headI_append (natRepr_ne_nil j)]
    exact jsWs_of_isDigit (natRepr_chars (headI_mem (natRepr_ne_nil j)))
  · rw [numbered_data, List.reverse_append]
    rw [headI_append (by simpa [List.reverse_eq_nil_iff] using hne)]
    exact hl

theorem numbered_ne_empty {j : Nat} {item : String} :
    (natRepr j ++ ". " ++ item) ≠ "" := by
  apply str_ne_empty_of_data
  rw [numbered_data]
  simp [natRepr_ne_nil j]

theorem joinNl_cons_data {x y : String} {xs : List String} :
    (joinNl (x :: y :: xs)).data = x.data ++ '\n' :: (joinNl (y :: xs)).data := by
  rw [show joinNl (x :: y :: xs) = x ++ "\n" ++ joinNl (y :: xs) from rfl]
  rw [String.data_append, String.data_append, List.append_assoc]
  rfl

theorem joinNl_ne_nil {x : String} (xs : List String) (hx : x.data ≠ []) :
    (joinNl (x :: xs)).data ≠ [] := by
  cases xs with
  | nil => exact hx
  | cons y ys =>
    rw [joinNl_cons_data]
    simp [hx]

theorem joinNl_headI {x : String} (xs : List String) (hx : x.data ≠ []) :
    (joinNl (x :: xs)).data.headI = x.data.headI := by
  cases xs with
  | nil => rfl
  | cons y ys =>
    rw [joinNl_cons_data]
    exact headI_append hx

theorem splitLinesS_joinNl :
    ∀ pieces : List String, pieces ≠ [] → (∀ s ∈ pieces, '\n' ∉ s.data) →
      splitLinesS (joinNl pieces) = pieces
  | [], h, _ => absurd rfl h
  | [x], _, h => by
    unfold splitLinesS
    rw [show joinNl [x] = x from rfl, splitLines_noNl (h x (List.mem_singleton_self x))]
    simp [stringMk_data]
  | x :: y :: rest, _, h => by
    unfold splitLinesS
    rw [joinNl_cons_data, splitLines_append _ (h x (List.mem_cons_self _ _))]
    rw [List.map_cons, stringMk_data]
    have ih := splitLinesS_joinNl (y :: rest) (by simp)
      (fun s hs => h s (List.mem_cons_of_mem _ hs))
    unfold splitLinesS at ih
    rw [ih]

theorem takeWhile_nil_of_headI {p : Char → Bool} {l : List Char} (h : p l.headI = false) :
    l.takeWhile p = [] := by
  cases l with
  | nil => rfl
  | cons a t =>
    simp only [List.headI] at h
    simp [List.takeWhile_cons, h]

theorem matchTimelineAt_encode {rest : List Char} (hh : jsWs rest.headI = false) :
    matchTimelineAt ("*Timeline:*".data ++ '\n' :: rest) = some rest := by
  unfold matchTimelineAt
  rw [if_pos (List.isPrefixOf_iff_prefix.mpr (List.prefix_append _ _))]
  rw [show (11 : Nat) = ("*Timeline:*".data).length from rfl, List.drop_left]
  show (match lastNewlinePos (List.takeWhile jsWs ('\n' :: rest)) with
        | some k => some (List.drop (k + 1) ('\n' :: rest))
        | none => none) = some rest
  rw [show List.takeWhile jsWs ('\n' :: rest) = '\n' :: List.takeWhile jsWs rest by
    simp [List.takeWhile_cons, show jsWs '\n' = true from rfl]]
  rw [takeWhile_nil_of_headI hh]
  rfl

theorem replTimelineLabel_encode {rest : String} (hh : jsWs rest.data.headI = false) :
    replTimelineLabel ("*Timeline:*\n" ++ rest) = rest := by
  unfold replTimelineLabel
  rw [show ("*Timeline:*\n" ++ rest).data = '*' :: ("Timeline:*".data ++ '\n' :: rest.data) by
    rw [String.data_append]
    rfl]
  rw [replTimelineAux]
  rw [show ('*' :: ("Timeline:*".data ++ '\n' :: rest.data))
      = "*Timeline:*".data ++ '\n' :: rest.data from rfl]
  rw [matchTimelineAt_encode hh, stringMk_data]

theorem timelineLines_encode (tl : List String) (htl : tl ≠ [])
    (hitems : ∀ item ∈ tl, flatStr item) :
    timelineLines ("*Timeline:*\n" ++ joinNl (numberItems tl)) = numberItems tl := by
  obtain ⟨i0, rest, rfl⟩ : ∃ i0 rest, tl = i0 :: rest := by
    cases tl with
    | nil => exact absurd rfl htl
    | cons a l => exact ⟨a, l, rfl⟩
  have hflat : ∀ x ∈ numberItems (i0 :: rest), flatStr x := by
    intro x hx
    obtain ⟨j, item, hitem, rfl⟩ := numberItemsFrom_mem 0 (i0 :: rest) x hx
    exact numbered_flat (hitems item hitem)
  have hnum : numberItems (i0 :: rest)
      = (natRepr 1 ++ ". " ++ i0) :: numberItemsFrom 1 rest := rfl
  have hne0 : (natRepr 1 ++ ". " ++ i0).data ≠ [] := by
    rw [numbered_data]
    simp [natRepr_ne_nil 1]
  have hjoin_head : jsWs (joinNl (numberItems (i0 :: rest))).data.headI = false := by
    rw [hnum, joinNl_headI _ hne0]
    have : flatStr (natRepr 1 ++ ". " ++ i0) :=
      hflat _ (by rw [hnum]; exact List.mem_cons_self _ _)
    exact this.2.2.1
  unfold timelineLines
  rw [replTimelineLabel_encode hjoin_head]
  rw [splitLinesS_joinNl (numberItems (i0 :: rest))
      (by rw [hnum]; simp) (fun s hs => (hflat s hs).2.1)]
  rw [List.map_congr_left (fun x hx => flatStr_trim (hflat x hx)),
      show (fun x : String => x) = id from rfl, List.map_id]
  refine List.filter_eq_self.mpr (fun x hx => ?_)
  obtain ⟨j, item, hitem, rfl⟩ := numberItemsFrom_mem 0 (i0 :: rest) x hx
  simp only [bne_iff_ne, ne_eq, decide_eq_true_eq]
  exact numbered_ne_empty

theorem sectionStep_timeline (p : PartialPlan) (tl : List String) (htl : tl ≠ [])
    (hitems : ∀ item ∈ tl, flatStr item) :
    sectionStep p (SlackBlock.section none (some ("*Timeline:*\n" ++ joinNl (numberItems tl))))
      = { p with timeline := some (numberItems tl) } := by
  have hne : ("*Timeline:*\n" ++ joinNl (numberItems tl)) ≠ "" := by
    apply str_ne_empty_of_data
    rw [String.data_append]
    simp
  have hinc : strIncludes ("*Timeline:*\n" ++ joinNl (numberItems tl)) "Timeline:" = true := by
    rw [show ("*Timeline:*\n" ++ joinNl (numberItems tl))
        = "*Timeline:*" ++ "\n" ++ joinNl (numberItems tl) from rfl]
    exact strIncludes_append_left _ _ _ (strIncludes_append_left _ _ _ (by decide))
  rw [sectionStep, if_pos ⟨hne, hinc⟩]
  rw [timelineLines_encode tl htl hitems]

/-! ## Shared lemmas: encoder block list and the full round trip -/

theorem stripGlyphAux_id {l : List Char} (h : '🎉' ∉ l) : stripGlyphAux l = l := by
  induction l with
  | nil => rfl
  | cons c cs ih =>
    have hc : ¬(c = '🎉') := fun he => h (he ▸ List.mem_cons_self c cs)
    have hcs : '🎉' ∉ cs := fun hm => h (List.mem_cons_of_mem c hm)
    simp [stripGlyphAux, hc, ih hcs]

theorem stripGlyph_id {s : String} (h : '🎉' ∉ s.data) : stripGlyph s = s := by
  unfold stripGlyph
  rw [stripGlyphAux_id h, stringMk_data]

theorem formatEventMessage_blocks_basic (p : EventPlan) (today : String)
    (hg : p.guests = []) (hd : p.description = none) (ht : p.timeline ≠ []) :
    (formatEventMessage p today).blocks =
      [SlackBlock.header p.title,
       SlackBlock.section (some ["*Date:*\n" ++ formatLongDate p.date,
         "*Expected Guests:*\nTBD",
         "*Budget:*\n$" ++ natToLocale p.budget,
         "*Venue:*\n" ++ venueDisplay p.venue]) none,
       SlackBlock.section none (some ("*Timeline:*\n" ++ joinNl (numberItems p.timeline))),
       SlackBlock.divider,
       SlackBlock.context ("Event created by AI Event Planner • " ++ today)] := by
  have hlen : p.timeline.length > 0 := List.length_pos.mpr ht
  simp [formatEventMessage, hg, hd, truthyS, hlen]

/-- The scraped record the round trip is about to produce. -/
theorem extract_encode_basic (p : EventPlan) (today : String) (v : String)
    (hg : p.guests = []) (hd : p.description = none) (ht : p.timeline ≠ [])
    (hdate : parseIsoDate p.date ≠ none)
    (hv : p.venue = some v) (hvne : v ≠ "") (hvflat : flatStr v)
    (hvd : strIncludes v "Date:" = false) (hvb : strIncludes v "Budget:" = false)
    (htne : p.title ≠ "") (htitle : '🎉' ∉ p.title.data)
    (htitletrim : jsTrim p.title = p.title)
    (hitems : ∀ item ∈ p.timeline, flatStr item) :
    extractEventFromBlocks (formatEventMessage p today).blocks
      = some { title := some p.title,
               date := some (some (formatLongDate p.date)),
               budget := some (some (natRepr p.budget)),
               venue := some (some v),
               timeline := some (numberItems p.timeline) } := by
  rw [formatEventMessage_blocks_basic p today hg hd ht]
  have hvd2 : venueDisplay p.venue = v := by
    rw [hv, venueDisplay, if_neg hvne]
  rw [hvd2]
  unfold extractEventFromBlocks
  rw [show List.find? isHeaderB
        [SlackBlock.header p.title,
         SlackBlock.section (some ["*Date:*\n" ++ formatLongDate p.date,
           "*Expected Guests:*\nTBD",
           "*Budget:*\n$" ++ natToLocale p.budget,
           "*Venue:*\n" ++ v]) none,
         SlackBlock.section none (some ("*Timeline:*\n" ++ joinNl (numberItems p.timeline))),
         SlackBlock.divider,
         SlackBlock.context ("Event created by AI Event Planner • " ++ today)]
      = some (SlackBlock.header p.title) by rw [List.find?_cons]; rfl]
  rw [show List.filter isSectionB
        [SlackBlock.header p.title,
         SlackBlock.section (some ["*Date:*\n" ++ formatLongDate p.date,
           "*Expected Guests:*\nTBD",
           "*Budget:*\n$" ++ natToLocale p.budget,
           "*Venue:*\n" ++ v]) none,
         SlackBlock.section none (some ("*Timeline:*\n" ++ joinNl (numberItems p.timeline))),
         SlackBlock.divider,
         SlackBlock.context ("Event created by AI Event Planner • " ++ today)]
      = [SlackBlock.section (some ["*Date:*\n" ++ formatLongDate p.date,
           "*Expected Guests:*\nTBD",
           "*Budget:*\n$" ++ natToLocale p.budget,
           "*Venue:*\n" ++ v]) none,
         SlackBlock.section none (some ("*Timeline:*\n" ++ joinNl (numberItems p.timeline)))]
      by simp [List.filter, isSectionB]]
  dsimp only
  rw [if_pos htne, stripGlyph_id htitle, htitletrim]
  rw [List.foldl_cons, List.foldl_cons, List.foldl_nil]
  rw [show sectionStep { emptyPartial with title := some p.title }
        (SlackBlock.section (some ["*Date:*\n" ++ formatLongDate p.date,
          "*Expected Guests:*\nTBD",
          "*Budget:*\n$" ++ natToLocale p.budget,
          "*Venue:*\n" ++ v]) none)
      = List.foldl fieldStep { emptyPartial with title := some p.title }
          ["*Date:*\n" ++ formatLongDate p.date,
           "*Expected Guests:*\nTBD",
           "*Budget:*\n$" ++ natToLocale p.budget,
           "*Venue:*\n" ++ v] from rfl]
  rw [List.foldl_cons, List.foldl_cons, List.foldl_cons, List.foldl_cons, List.foldl_nil]
  rw [fieldStep_date, fieldStep_guests_tbd, fieldStep_budget,
      fieldStep_venue _ v hvflat hvd hvb]
  rw [sectionStep_timeline _ p.timeline ht hitems]
  rfl

/-- Packaging of the four flatness checks. -/
theorem flatStr_of_checks {s : String} (h1 : s.data ≠ []) (h2 : '\n' ∉ s.data)
    (h3 : jsWs s.data.headI = false) (h4 : jsWs s.data.reverse.headI = false) :
    flatStr s := ⟨h1, h2, h3, h4⟩

/-! ## Claim C1 -/

/-- Claim C1, corrected.  For a plan of the representable subset (title,
date, budget, venue, non-empty timeline, no guests, no description), with
a non-empty title free of the decorative glyph and trim-stable, a date in
the ISO YYYY-MM-DD shape the prompt requests, a whole-number budget, the
venue a non-empty single trimmed line free of the Date and Budget label
markers, and every timeline item a non-empty single trimmed line, decoding
the encoded rich message recovers the title and the venue identically, but
the date comes back as the long-form rendering of the original date, the
budget as the decimal digit string of the original amount, and every
timeline item with its rendered "N. " numbering prefix (order preserved). -/
theorem C1_encode_decode_roundtrip (p : EventPlan) (today v : String)
    (hg : p.guests = []) (hd : p.description = none) (ht : p.timeline ≠ [])
    (hdate : parseIsoDate p.date ≠ none)
    (hv : p.venue = some v) (hvne : v ≠ "") (hvflat : flatStr v)
    (hvd : strIncludes v "Date:" = false) (hvb : strIncludes v "Budget:" = false)
    (htne : p.title ≠ "") (htitle : '🎉' ∉ p.title.data)
    (htitletrim : jsTrim p.title = p.title)
    (hitems : ∀ item ∈ p.timeline, flatStr item) :
    extractEventFromBlocks (formatEventMessage p today).blocks
      = some { title := some p.title,
               date := some (some (formatLongDate p.date)),
               budget := some (some (natRepr p.budget)),
               venue := some (some v),
               timeline := some (numberItems p.timeline) } :=
  extract_encode_basic p today v hg hd ht hdate hv hvne hvflat hvd hvb htne htitle
    htitletrim hitems

/-- Witness for Claim C1 at a concrete plan. -/
theorem C1_roundtrip_witness :
    extractEventFromBlocks (formatEventMessage c1Plan "2/2/2025").blocks
      = some { title := some c1Plan.title,
               date := some (some (formatLongDate c1Plan.date)),
               budget := some (some (natRepr c1Plan.budget)),
               venue := some (some "Roof"),
               timeline := some (numberItems c1Plan.timeline) } :=
  C1_encode_decode_roundtrip c1Plan "2/2/2025" "Roof" rfl rfl (by decide) (by decide)
    rfl (by decide)
    (flatStr_of_checks (by decide) (by decide) (by decide) (by decide))
    (by decide) (by decide) (by decide) (by decide) (by decide)
    (by
      intro item h
      simp only [c1Plan, List.mem_cons, List.not_mem_nil, or_false] at h
      rcases h with rfl | rfl
      · exact flatStr_of_checks (by decide) (by decide) (by decide) (by decide)
      · exact flatStr_of_checks (by decide) (by decide) (by decide) (by decide))

/-- Counterexample to Claim C1 as stated: at a concrete representable plan
the decoded date is the long rendering, not the original date string, and
the decoded timeline entries keep their numbering prefixes, so neither
comes back identical. -/
theorem C1_roundtrip_counterexample :
    extractEventFromBlocks (formatEventMessage c1Plan "1/1/2025").blocks
      = some { title := some "Company Party",
               date := some (some "Saturday, June 14, 2025"),
               budget := some (some "1000"),
               venue := some (some "Roof"),
               timeline := some ["1. setup", "2. cleanup"] }
    ∧ "Saturday, June 14, 2025" ≠ c1Plan.date
    ∧ (["1. setup", "2. cleanup"] : List String) ≠ c1Plan.timeline :=
  ⟨by decide, by decide, by decide⟩

/-! ## Claims C3 and C10 -/

theorem string_data_inj {a b : String} (h : a.data = b.data) : a = b := by
  rw [← stringMk_data a, ← stringMk_data b, h]

/-- The verifier collapsed to its two checks, for a timestamp that parses. -/
theorem verify_core (hmacHex : String → String → String) (currentTime : Int)
    (secret ts : String) {t : Int} (hts : parseIntJS ts = some t) (b2 s2 : String) :
    verifySlackSignature hmacHex currentTime secret ts b2 s2
      = (if (currentTime - t).natAbs > 300 then false
         else (("v0=" ++ hmacHex secret ("v0:" ++ ts ++ ":" ++ b2)) == s2)) := by
  by_cases hst : (currentTime - t).natAbs > 300
  · simp [verifySlackSignature, hts, hst]
  · simp [verifySlackSignature, hts, hst]

/-- Claim C3, confirmed.  For a timestamp that parseInt reads as t, the
verifier accepts exactly when the timestamp is within the 300-second
window and the supplied signature equals "v0=" plus the HMAC hex digest of
"v0:" + timestamp + ":" + body; in particular a stale timestamp is
rejected whatever the signature, and a body whose digest differs from the
original one is rejected under the original signature (digest inequality
standing in for the collision-freeness of HMAC-SHA256). -/
theorem C3_verify_iff (hmacHex : String → String → String) (currentTime : Int)
    (secret ts body sig : String) (t : Int) (hts : parseIntJS ts = some t) :
    (verifySlackSignature hmacHex currentTime secret ts body sig = true
       ↔ ((currentTime - t).natAbs ≤ 300
          ∧ sig = "v0=" ++ hmacHex secret ("v0:" ++ ts ++ ":" ++ body)))
    ∧ ((currentTime - t).natAbs > 300
       → verifySlackSignature hmacHex currentTime secret ts body sig = false)
    ∧ (∀ body2 : String,
        hmacHex secret ("v0:" ++ ts ++ ":" ++ body2)
            ≠ hmacHex secret ("v0:" ++ ts ++ ":" ++ body)
        → verifySlackSignature hmacHex currentTime secret ts body2
            ("v0=" ++ hmacHex secret ("v0:" ++ ts ++ ":" ++ body)) = false) := by
  refine ⟨?_, ?_, ?_⟩
  · by_cases hst : (currentTime - t).natAbs > 300
    · rw [verify_core hmacHex currentTime secret ts hts, if_pos hst]
      constructor
      · intro h
        cases h
      · rintro ⟨h300, _⟩
        omega
    · rw [verify_core hmacHex currentTime secret ts hts, if_neg hst, beq_iff_eq]
      constructor
      · intro h
        exact ⟨by omega, h.symm⟩
      · rintro ⟨_, h⟩
        exact h.symm
  · intro h300
    rw [verify_core hmacHex currentTime secret ts hts, if_pos h300]
  · intro body2 hne
    by_cases hst : (currentTime - t).natAbs > 300
    · rw [verify_core hmacHex currentTime secret ts hts, if_pos hst]
    · rw [verify_core hmacHex currentTime secret ts hts, if_neg hst]
      refine beq_eq_false_iff_ne.mpr ?_
      intro he
      apply hne
      have hd := congrArg String.data he
      rw [String.data_append, String.data_append] at hd
      exact string_data_inj (List.append_cancel_left hd)

/-- Witness for Claim C3: a fresh timestamp with the matching digest is
accepted. -/
theorem C3_verify_witness :
    verifySlackSignature (fun _ m => m) 0 "sec" "0" "body" "v0=v0:0:body" = true :=
  ((C3_verify_iff (fun _ m => m) 0 "sec" "0" "body" "v0=v0:0:body" 0 (by decide)).1).mpr
    ⟨by decide, by decide⟩

/-- Claim C10, confirmed.  When the timestamp header does not parse to a
number, the staleness window is not enforced: the verifier is decided
solely by the signature comparison, whatever the current time. -/
theorem C10_nan_timestamp (hmacHex : String → String → String) (currentTime : Int)
    (secret ts body sig : String) (hts : parseIntJS ts = none) :
    verifySlackSignature hmacHex currentTime secret ts body sig = true
      ↔ sig = "v0=" ++ hmacHex secret ("v0:" ++ ts ++ ":" ++ body) := by
  unfold verifySlackSignature
  rw [hts]
  show (("v0=" ++ hmacHex secret ("v0:" ++ ts ++ ":" ++ body)) == sig) = true ↔ _
  rw [beq_iff_eq]
  exact eq_comm

/-- Witness for Claim C10: a non-numeric timestamp with a matching digest
is accepted even at a current time far outside any window. -/
theorem C10_nan_witness :
    verifySlackSignature (fun _ m => m) 999999999 "sec" "abc" "body" "v0=v0:abc:body" = true :=
  (C10_nan_timestamp (fun _ m => m) 999999999 "sec" "abc" "body" "v0=v0:abc:body"
    (by decide)).mpr (by decide)

/-! ## Claims C5 and C9 -/

/-- A value with a readable property is an object, hence truthy. -/
theorem jTruthy_of_jGet {j : Json} {k : String} {x : Json} (h : jGet j k = some x) :
    jTruthy j = true := by
  cases j with
  | obj fs => rfl
  | null => exact absurd h (by simp [jGet])
  | bool b => exact absurd h (by simp [jGet])
  | num n => exact absurd h (by simp [jGet])
  | str s => exact absurd h (by simp [jGet])
  | arr xs => exact absurd h (by simp [jGet])

/-- Claim C5, confirmed.  The webhook response status is 401 exactly when a
signing secret is configured and the signature check fails; on every other
path, including an unparseable payload and every dispatch branch, it
is 200. -/
theorem C5_webhook_status (hmacHex : String → String → String) (currentTime : Int)
    (signingSecret tsHeader sigHeader : Option String) (body : String)
    (parsed : Option Json) :
    (handleSlackWebhook hmacHex currentTime signingSecret tsHeader sigHeader
        body parsed).status
      = if truthyS signingSecret = true
            ∧ verifySlackSignature hmacHex currentTime (signingSecret.getD "")
                (tsHeader.getD "") body (sigHeader.getD "") = false
        then 401 else 200 := by
  by_cases hcond : truthyS signingSecret = true
      ∧ verifySlackSignature hmacHex currentTime (signingSecret.getD "")
          (tsHeader.getD "") body (sigHeader.getD "") = false
  · rw [if_pos hcond]
    unfold handleSlackWebhook
    dsimp only
    rw [if_pos hcond.1, hcond.2, if_pos (by simp)]
  · rw [if_neg hcond]
    unfold handleSlackWebhook
    dsimp only
    by_cases hs : truthyS signingSecret = true
    · have hv' : verifySlackSignature hmacHex currentTime (signingSecret.getD "")
          (tsHeader.getD "") body (sigHeader.getD "") = true := by
        cases hvv : verifySlackSignature hmacHex currentTime (signingSecret.getD "")
            (tsHeader.getD "") body (sigHeader.getD "")
        · exact absurd ⟨hs, hvv⟩ hcond
        · rfl
      rw [if_pos hs, hv', if_neg (by simp)]
      cases parsed with
      | none => rfl
      | some payload =>
        dsimp only
        split_ifs <;> rfl
    · rw [if_neg hs, if_neg (by simp)]
      cases parsed with
      | none => rfl
      | some payload =>
        dsimp only
        split_ifs <;> rfl

/-- Claim C9, confirmed.  An event_callback whose message event carries a
(non-empty) bot_id makes no model-inference call: neither the user-message
branch nor the mention branch fires. -/
theorem C9_bot_message_ignored (hmacHex : String → String → String) (currentTime : Int)
    (signingSecret tsHeader sigHeader : Option String) (body : String)
    (payload ev : Json) (b : String)
    (hp : jGet payload "type" = some (Json.str "event_callback"))
    (hev : jGet payload "event" = some ev)
    (het : jGet ev "type" = some (Json.str "message"))
    (hbot : jGet ev "bot_id" = some (Json.str b)) (hb : b ≠ "") :
    (handleSlackWebhook hmacHex currentTime signingSecret tsHeader sigHeader
        body (some payload)).aiCalls = 0 := by
  have hcalls : eventAiCalls ((jGet payload "event").getD Json.null) = 0 := by
    rw [hev]
    show eventAiCalls ev = 0
    unfold eventAiCalls
    rw [het, hbot]
    simp [isStrEq, jOptTruthy, jTruthy, hb]
  unfold handleSlackWebhook
  dsimp only
  split_ifs <;> simp [hcalls]

/-- Witness for Claim C9 at a concrete bot-message payload. -/
theorem C9_bot_witness :
    (handleSlackWebhook (fun _ _ => "h") 0 none none none "irrelevant"
        (some c9BotPayload)).aiCalls = 0 :=
  C9_bot_message_ignored (fun _ _ => "h") 0 none none none "irrelevant"
    c9BotPayload
    (Json.obj [("type", Json.str "message"), ("bot_id", Json.str "B9"),
      ("text", Json.str "let us plan a party"), ("channel", Json.str "C1")])
    "B9" rfl rfl rfl rfl (by decide)

/-! ## Claims C6 and C7 -/

/-- Claim C6, confirmed.  Approval with a channel and a bot token present
but a failed delivery returns HTTP 400 with the delivery error surfaced,
the plan still in the response with status approved (not sent_to_slack),
and exactly one delivery attempt (no automatic retry). -/
theorem C6_approval_delivery_failure (plan : EventPlan) (ch tok : Option String)
    (now : String) (res : PostResult)
    (hch : truthyS ch = true) (htok : truthyS tok = true) (hres : res.ok = false) :
    handleEventApproval plan ch true tok now res
      = { status := 400, success := false, message := none,
          error := some ("Failed to post to Slack: " ++ (res.error).getD "undefined"),
          returnedPlan := some { plan with status := EventStatus.approved,
                                             updatedAt := now, slackChannelId := ch },
          planState := { plan with status := EventStatus.approved,
                                   updatedAt := now, slackChannelId := ch },
          deliveryCalls := 1 }
    ∧ EventStatus.approved ≠ EventStatus.sent_to_slack := by
  refine ⟨?_, by decide⟩
  unfold handleEventApproval
  rw [if_neg (by simp), if_pos ⟨hch, htok⟩, if_neg (by rw [hres]; simp)]

/-- Witness for Claim C6 at a concrete failed delivery. -/
theorem C6_approval_witness :
    handleEventApproval c6Plan (some "C7") true (some "tok") "t1"
        ⟨false, some "channel_not_found"⟩
      = { status := 400, success := false, message := none,
          error := some ("Failed to post to Slack: "
            ++ ((some "channel_not_found" : Option String)).getD "undefined"),
          returnedPlan := some { c6Plan with status := EventStatus.approved,
                                               updatedAt := "t1", slackChannelId := some "C7" },
          planState := { c6Plan with status := EventStatus.approved,
                                     updatedAt := "t1", slackChannelId := some "C7" },
          deliveryCalls := 1 }
    ∧ EventStatus.approved ≠ EventStatus.sent_to_slack :=
  C6_approval_delivery_failure c6Plan (some "C7") (some "tok") "t1"
    ⟨false, some "channel_not_found"⟩ rfl rfl rfl

/-- Claim C7, confirmed.  A disapproval returns the discard acknowledgment,
leaves the plan object exactly as it came (no status or field mutation),
and makes no delivery call. -/
theorem C7_disapproval_frame (plan : EventPlan) (ch tok : Option String)
    (now : String) (res : PostResult) (approved : Bool) (ha : approved = false) :
    handleEventApproval plan ch approved tok now res
      = { status := 200, success := true, message := some "Event plan discarded",
          error := none, returnedPlan := none, planState := plan,
          deliveryCalls := 0 } := by
  subst ha
  unfold handleEventApproval
  rw [if_pos (by simp)]

/-- Witness for Claim C7 at a concrete disapproval. -/
theorem C7_disapproval_witness :
    handleEventApproval c6Plan (some "C7") false (some "tok") "t1" ⟨true, none⟩
      = { status := 200, success := true, message := some "Event plan discarded",
          error := none, returnedPlan := none, planState := c6Plan,
          deliveryCalls := 0 } :=
  C7_disapproval_frame c6Plan (some "C7") (some "tok") "t1" ⟨true, none⟩ false rfl

/-! ## Claim C8 -/

/-- Claim C8, confirmed.  The history fetch yields an empty list on a
failed call or a non-ok response; a successful fetch honors the limit of 5;
the scanner returns the reconstruction of the first recognizable message,
ignoring everything after it and merging nothing, and null when no message
in the window is recognizable; and on the concrete five-message window
where only the third (by recency) carries a plan, it returns exactly that
 reconstruction. -/
theorem C8_context_builder :
    (getRecentChannelMessages none = []
      ∧ ∀ d : HistoryResponse, d.ok ≠ some true → getRecentChannelMessages (some d) = [])
    ∧ (∀ ch : List SlackMsg,
        (getRecentChannelMessages (some (slackHistoryOk ch))).length ≤ historyRequestLimit)
    ∧ (∀ (pre : List SlackMsg) (m : SlackMsg) (rest : List SlackMsg),
        (∀ x ∈ pre, msgRecognized x = false) → msgRecognized m = true →
          findRecentEventPlan (pre ++ m :: rest) = msgExtract m)
    ∧ (∀ msgs : List SlackMsg, (∀ x ∈ msgs, msgRecognized x = false) →
        findRecentEventPlan msgs = none)
    ∧ (c8Messages.map msgRecognized = [false, false, true, false, false]
       ∧ findRecentEventPlan c8Messages
          = some { title := some "Company Party",
                   date := some (some "Saturday, June 14, 2025"),
                   budget := some (some "1000"),
                   venue := some (some "Roof"),
                   timeline := some ["1. setup", "2. cleanup"] }) := by
  refine ⟨⟨rfl, ?_⟩, ?_, ?_, ?_, by decide, by decide⟩
  · intro d hd
    unfold getRecentChannelMessages
    dsimp only
    rw [if_neg hd]
  · intro ch
    show (if (some true : Option Bool) = some true
        then (some (ch.take historyRequestLimit)).getD [] else []).length ≤ historyRequestLimit
    rw [if_pos rfl]
    show (ch.take historyRequestLimit).length ≤ historyRequestLimit
    rw [List.length_take]
    exact min_le_left _ _
  · intro pre m rest hpre hm
    induction pre with
    | nil =>
      show findRecentEventPlan (m :: rest) = msgExtract m
      by_cases hB : msgHasEventHeader m = true
      · simp only [findRecentEventPlan]
        rw [if_pos hB]
        unfold msgExtract
        rw [if_pos hB]
      · have hT : msgTextLooksPlan m = true := by
          simp only [msgRecognized, Bool.or_eq_true] at hm
          rcases hm with h | h
          · exact absurd h hB
          · exact h
        simp only [findRecentEventPlan]
        rw [if_neg hB, if_pos hT]
        unfold msgExtract
        rw [if_neg hB, if_pos hT]
    | cons x xs ih =>
      have hx := hpre x (List.mem_cons_self x xs)
      simp only [msgRecognized, Bool.or_eq_false_iff] at hx
      rw [List.cons_append]
      simp only [findRecentEventPlan]
      rw [if_neg (by rw [hx.1]; simp), if_neg (by rw [hx.2]; simp)]
      exact ih (fun y hy => hpre y (List.mem_cons_of_mem x hy))
  · intro msgs hall
    induction msgs with
    | nil => rfl
    | cons x xs ih =>
      have hx := hall x (List.mem_cons_self x xs)
      simp only [msgRecognized, Bool.or_eq_false_iff] at hx
      simp only [findRecentEventPlan]
      rw [if_neg (by rw [hx.1]; simp), if_neg (by rw [hx.2]; simp)]
      exact ih (fun y hy => hall y (List.mem_cons_of_mem x hy))

/-! ## Claims C2 and C4 -/

theorem objLookup_upsert_self (l : List (String × Json)) (k : String) (v : Json) :
    objLookup (objUpsert l k v) k = some v := by
  induction l with
  | nil => simp [objUpsert, objLookup]
  | cons kv rest ih =>
    obtain ⟨k', v'⟩ := kv
    by_cases hk : k' = k
    · simp [objUpsert, objLookup, hk]
    · simp [objUpsert, objLookup, hk, ih]

theorem objLookup_upsert_ne (l : List (String × Json)) (k q : String) (v : Json)
    (h : q ≠ k) : objLookup (objUpsert l k v) q = objLookup l q := by
  have hkq : ¬(k = q) := fun he => h he.symm
  induction l with
  | nil => simp [objUpsert, objLookup, hkq]
  | cons kv rest ih =>
    obtain ⟨k', v'⟩ := kv
    by_cases hk : k' = k
    · subst hk
      simp [objUpsert, objLookup, hkq]
    · simp [objUpsert, objLookup, hk, ih]

/-- Claim C2, corrected.  When the mention-handler decode succeeds, the
synthesized plan is posted immediately (no draft/approve UI step) with its
destination channel set to the mention channel; but its status field is
the literal draft and is never promoted after the send: nothing in the
mention path ever writes sent_to_slack. -/
theorem C2_mention_plan (channel uuid now aiResponse : String) (parsed : Json)
    (hparse : jsonParse aiResponse = some parsed)
    (haction : isCreateEventAction (jGet parsed "action") = true)
    (hevent : jOptTruthy (jGet parsed "event") = true) :
    mentionRespond channel uuid now aiResponse
      = MentionAction.richPlan
          (mentionPlan channel uuid now ((jGet parsed "event").getD Json.null))
    ∧ objLookup (mentionPlan channel uuid now ((jGet parsed "event").getD Json.null))
        "slackChannelId" = some (Json.str channel)
    ∧ objLookup (mentionPlan channel uuid now ((jGet parsed "event").getD Json.null))
        "status" = some (Json.str "draft") := by
  refine ⟨?_, ?_, ?_⟩
  · unfold mentionRespond
    rw [hparse]
    dsimp only
    rw [if_pos (by rw [Bool.and_eq_true]; exact ⟨haction, hevent⟩)]
  · unfold mentionPlan
    rw [objLookup_upsert_ne _ _ _ _ (by decide), objLookup_upsert_ne _ _ _ _ (by decide),
        objLookup_upsert_self]
  · unfold mentionPlan
    rw [objLookup_upsert_ne _ _ _ _ (by decide), objLookup_upsert_ne _ _ _ _ (by decide),
        objLookup_upsert_ne _ _ _ _ (by decide), objLookup_upsert_self]

/-- Witness for Claim C2 at a concrete bare-JSON model output. -/
theorem C2_mention_witness :
    mentionRespond "C42" "u1" "t1" c2ModelOutput
      = MentionAction.richPlan
          (mentionPlan "C42" "u1" "t1" (Json.obj [("title", Json.str "Offsite")]))
    ∧ objLookup (mentionPlan "C42" "u1" "t1" (Json.obj [("title", Json.str "Offsite")]))
        "slackChannelId" = some (Json.str "C42")
    ∧ objLookup (mentionPlan "C42" "u1" "t1" (Json.obj [("title", Json.str "Offsite")]))
        "status" = some (Json.str "draft") :=
  C2_mention_plan "C42" "u1" "t1" c2ModelOutput
    (Json.obj [("action", Json.str "create_event"),
               ("event", Json.obj [("title", Json.str "Offsite")])])
    rfl rfl rfl

/-- Counterexample to Claim C2 as stated: at a concrete decoded plan with a
successful send, the plan the mention handler builds and posts says status
draft, not sent_to_slack; the status is never promoted because the mention
path has no write after the send. -/
theorem C2_mention_counterexample :
    mentionRespond "C42" "u1" "t1" c2ModelOutput
      = MentionAction.richPlan
          [("id", Json.str "u1"), ("title", Json.str "Offsite"),
           ("status", Json.str "draft"), ("slackChannelId", Json.str "C42"),
           ("createdAt", Json.str "t1"), ("updatedAt", Json.str "t1")]
    ∧ planStrField
        ((mentionPlanOf (mentionRespond "C42" "u1" "t1" c2ModelOutput)).getD [])
        "status" = some "draft"
    ∧ ("draft" : String) ≠ "sent_to_slack" :=
  ⟨rfl, rfl, by decide⟩

/-- Claim C4, corrected.  The fenced-code-block extraction exists only at
the chat-API call site: there the decoder prefers the captured fenced JSON
object and falls back to the full text, and a non-JSON or marker-less
result is returned unchanged as the reply; the mention handler parses the
full model output directly (no extraction), equally returning the raw text
unchanged on decode failure. -/
theorem C4_decode_sites (uuid now s : String) :
    (codeBlockSearch s.data = none → chatExtractJson s = s)
    ∧ (∀ cap : List Char, codeBlockSearch s.data = some cap
        → chatExtractJson s = String.mk cap)
    ∧ (∀ j : Json, jsonParse (chatExtractJson s) = some j
        → ¬(isCreateEventAction (jGet j "action") = true
            ∧ jOptTruthy (jGet j "event") = true)
        → chatRespond uuid now s = ChatAction.plain s)
    ∧ (jsonParse (chatExtractJson s) = none → chatRespond uuid now s = ChatAction.plain s)
    ∧ (∀ (ch : String) (j : Json), jsonParse s = some j
        → ¬(isCreateEventAction (jGet j "action") = true
            ∧ jOptTruthy (jGet j "event") = true)
        → mentionRespond ch uuid now s = MentionAction.plainText s)
    ∧ (∀ ch : String, jsonParse s = none
        → mentionRespond ch uuid now s = MentionAction.plainText s) := by
  refine ⟨?_, ?_, ?_, ?_, ?_, ?_⟩
  · intro h
    unfold chatExtractJson
    rw [h]
  · intro cap h
    unfold chatExtractJson
    rw [h]
  · intro j hj hmark
    unfold chatRespond
    dsimp only
    rw [hj]
    dsimp only
    rw [if_neg (fun hc => hmark ((Bool.and_eq_true _ _) ▸ hc))]
  · intro hj
    unfold chatRespond
    dsimp only
    rw [hj]
  · intro ch j hj hmark
    unfold mentionRespond
    rw [hj]
    dsimp only
    rw [if_neg (fun hc => hmark ((Bool.and_eq_true _ _) ▸ hc))]
  · intro ch hj
    unfold mentionRespond
    rw [hj]

/-- Counterexample to Claim C4 as stated: the same fenced model output
decodes to a plan at the chat-API site but is posted as plain
conversational text by the mention handler, whose JSON.parse of the full
text fails on the fence. -/
theorem C4_decode_counterexample :
    chatRespond "u1" "t1" c4FencedOutput
      = ChatAction.withPlan none
          [("id", Json.str "u1"), ("title", Json.str "Picnic"),
           ("status", Json.str "draft"), ("createdAt", Json.str "t1"),
           ("updatedAt", Json.str "t1")]
    ∧ mentionRespond "C42" "u1" "t1" c4FencedOutput
        = MentionAction.plainText c4FencedOutput :=
  ⟨rfl, rfl⟩
